import Mathlib

/-!
# Verification of the Jac → Python code-generation pass and CLI

Shallow embedding of `src/jaclang/jac/passes/py_codegen_pass.py`
(class `PyCodeGenPass`), of the pass-framework pieces it relies on
(`jaclang/jac/passes/ir_pass.py`, which is not part of the sampled
sources: those pieces are modelled from the specification and marked as
such), and of `src/jaclang/cli/cli.py`.

The AST mirrors `jaclang.jac.jac_ast`: every node owns a `meta["py_code"]`
string slot mutated by the pass.  Each Lean node is `Ast.mk meta shape`;
the shape holds the node-kind-specific fields in document order, which is
also the order the traversal visits the children (the framework walks
`node.kid` pre-order/post-order).  Optional children and child lists are
represented by the mutual types `AstOpt` and `AstList` so that all
recursion stays structural.

The seven architype-reference node classes (`GlobalRef`, `NodeRef`,
`EdgeRef`, `WalkerRef`, `FuncRef`, `ObjectRef`, `AbilityRef`) have
identical fields and identical (empty) exit handlers; they are embedded
as a single constructor tagged by `RefTag`.
-/

namespace JacGen

/-- Tag distinguishing the seven reference node classes that share the
field layout `name: Token` and have empty code-gen handlers. -/
inductive RefTag where
  | global | node | edge | walker | func | object | ability
deriving DecidableEq, Repr

mutual

/-- An AST node: its `meta["py_code"]` slot plus its kind-specific shape
(`jaclang.jac.jac_ast.AstNode` with the meta map restricted to the one
key this pass reads and writes). -/
inductive Ast : Type where
  | mk (meta : String) (shape : Shape)
deriving Repr

/-- Kind-specific payload of an AST node.  Constructor fields follow the
`Sub objects` docstrings of the corresponding handlers in
`py_codegen_pass.py`; children appear in document order.  Nodes whose
handler reads `node.line` carry a `line` field. -/
inductive Shape : Type where
  | Token (name value : String)
  | Parse (name : String)
  | Module (name : String) (doc : Ast) (body : Ast)
  | Elements (elements : AstList)
  | DocString (value : AstOpt)
  | ModuleCode (doc : Ast) (body : Ast)
  | Import (line : Nat) (lang : Ast) (path : Ast) («alias» : AstOpt) (items : AstOpt)
      (is_absorb : Bool)
  | ModulePath (path : AstList)
  | ModuleItems (items : AstList)
  | ModuleItem (name : Ast) («alias» : AstOpt)
  | Architype (line : Nat) (name : Ast) (typ : Ast) (doc : Ast) (access : AstOpt)
      (base_classes : AstOpt) (body : Ast)
  | BaseClasses (base_classes : AstList)
  | ArchBlock (members : AstList)
  | ArchHas (doc : Ast) (access : AstOpt) (vars : Ast) (h_id : Nat)
  | HasVarList (vars : AstList)
  | HasVar (name : Ast) (type_tag : Ast) (value : AstOpt)
  | TypeSpec (typ : Ast) (list_nest : AstOpt) (dict_nest : AstOpt)
  | CodeBlock (stmts : AstList)
  | IfStmt (condition : Ast) (body : Ast) (elseifs : AstOpt) (else_body : AstOpt)
  | CtrlStmt (ctrl : Ast)
  | Assignment (is_static : Bool) (target : Ast) (value : Ast)
  | BinaryExpr (left : Ast) (right : Ast) (op : Ast)
  | UnaryExpr (operand : Ast) (op : Ast)
  | IfElseExpr (condition : Ast) (value : Ast) (else_value : Ast)
  | FuncCall (target : Ast) (params : AstOpt)
  | AtomTrailer (target : Ast) (right : Ast) (null_ok : Bool)
  | ListVal (values : AstList)
  | ExprList (values : AstList)
  | DictVal (kv_pairs : AstList)
  | KVPair (key : Ast) (value : Ast)
  | Comprehension (key_expr : AstOpt) (out_expr : Ast) (name : Ast) (collection : Ast)
      (conditional : AstOpt)
  | IndexSlice (start : Ast) (stop : AstOpt)
  | ParamList (p_args : AstOpt) (p_kwargs : AstOpt)
  | AssignmentList (values : AstList)
  | ArchRef (tag : RefTag) (name : Ast)
  | HereRef (name : AstOpt)
  | VisitorRef (name : AstOpt)
deriving Repr

/-- A list of AST nodes (kept mutual so recursion is structural). -/
inductive AstList : Type where
  | nil
  | cons (hd : Ast) (tl : AstList)
deriving Repr

/-- An optional AST node (kept mutual so recursion is structural). -/
inductive AstOpt : Type where
  | none
  | some (a : Ast)
deriving Repr

end

/-- The `meta["py_code"]` slot of a node. -/
def Ast.metaOf : Ast → String
  | .mk m _ => m

/-- The shape of a node. -/
def Ast.shapeOf : Ast → Shape
  | .mk _ sh => sh

/-- The `value` attribute of a node assumed to be a `Token` (as in the
Python attribute access `node.xyz.value`); `""` for a non-token node, a
case in which the Python code would raise `AttributeError` and which is
ruled out by the well-typedness predicate `WTa` below. -/
def Ast.tokValue : Ast → String
  | .mk _ (.Token _ v) => v
  | _ => ""

/-- `meta["py_code"]` of an optional child; `""` when absent (the Python
code only reads the slot of children it first checked to be present,
except for `TypeSpec.list_nest`, see `WTs`). -/
def AstOpt.metaOf : AstOpt → String
  | .none => ""
  | .some a => a.metaOf

/-- Truthiness of an optional child: Python `if node.child:` on an
`Optional[AstNode]` field is `False` exactly for `None`, since AST node
objects define neither `__bool__` nor `__len__`. -/
def AstOpt.isSome : AstOpt → Bool
  | .none => false
  | .some _ => true

/-- Python `type(node.child) == ast.Token` on an optional child. -/
def AstOpt.isToken : AstOpt → Bool
  | .some (.mk _ (.Token _ _)) => true
  | _ => false

/-- `value` of an optional child assumed to be a token when present. -/
def AstOpt.tokValue : AstOpt → String
  | .none => ""
  | .some a => a.tokValue

/-- The `meta["py_code"]` strings of a node list, in order. -/
def AstList.metas : AstList → List String
  | .nil => []
  | .cons hd tl => hd.metaOf :: tl.metas

/-- The token `value`s of a node list, in order (used by handlers that
read `i.value` of token children, e.g. `exit_module_path`). -/
def AstList.tokValues : AstList → List String
  | .nil => []
  | .cons hd tl => hd.tokValue :: tl.tokValues

/-- Mutable state of a `PyCodeGenPass` instance: `indent_size` and
`indent_level` from `PyCodeGenPass.__init__`, and the diagnostic sink of
the base pass.

Modelled from the spec: the base class `Pass` (in
`jaclang/jac/passes/ir_pass.py`, not among the sampled sources) owns "a
diagnostic sink: two ordered sequences of (severity, location, message)
— warnings and errors"; we keep the two message sequences.

`indent_reads` is a ghost observation used only to state properties: it
records the value read from the mutable `indent_level` by each
`emit_ln` call (every `emit_ln` reads `indent_level` through
`indent_str`).  It mirrors no source field and influences nothing. -/
structure St where
  indent_size : Nat
  indent_level : Nat
  warnings : List String
  errors : List String
  indent_reads : List Nat
deriving DecidableEq, Repr

/-- State of a freshly constructed pass (`PyCodeGenPass.__init__`:
`indent_size = 4`, `indent_level = 0`, empty sink). -/
def initSt : St :=
  { indent_size := 4, indent_level := 0, warnings := [], errors := [], indent_reads := [] }

/-- `Pass.warning`: append a message to the warnings sequence of the sink.
Modelled from the spec (the sink lives in the unsampled `ir_pass.py`). -/
def St.warn (st : St) (msg : String) : St :=
  { st with warnings := st.warnings ++ [msg] }

/-- `Pass.error`: append a message to the errors sequence of the sink.
Modelled from the spec (the sink lives in the unsampled `ir_pass.py`). -/
def St.err (st : St) (msg : String) : St :=
  { st with errors := st.errors ++ [msg] }

/-- Modelled from the spec: the decorator `@Pass.incomplete` (defined in
the unsampled `ir_pass.py`) "attaches a structured warning `feature not
implemented` to the node and otherwise proceeds"; equivalently "a helper
called at the top of the relevant handlers" (spec §9).  Handlers carrying
the decorator in `py_codegen_pass.py` call this before their body. -/
def St.incomplete (st : St) : St :=
  st.warn "feature not implemented"

/-- `PyCodeGenPass.indent_str`:
`" " * self.indent_size * (self.indent_level + indent_delta)`. -/
def St.indentStr (st : St) (indent_delta : Nat) : String :=
  String.mk (List.replicate (st.indent_size * (st.indent_level + indent_delta)) ' ')

/-- `s.replace("\n", "\n" + ind)` for the single-character pattern
`"\n"`, written as structural recursion over the characters so that it
computes by `decide`/`rfl`. -/
def nlReplace (ind : String) (s : String) : String :=
  String.mk (go s.data)
where
  /-- Replace every `'\n'` by `'\n'` followed by `ind`. -/
  go : List Char → List Char
    | [] => []
    | c :: cs => if c = '\n' then '\n' :: ind.data ++ go cs else c :: go cs

/-- The string a single `PyCodeGenPass.emit_ln(node, s, indent_delta)`
call appends to `node.meta["py_code"]`:
`self.indent_str(indent_delta) + s.replace("\n", "\n" + self.indent_str(indent_delta)) + "\n"`. -/
def St.emitLnStr (st : St) (s : String) (indent_delta : Nat) : String :=
  st.indentStr indent_delta ++ nlReplace (st.indentStr indent_delta) s ++ "\n"

/-- `PyCodeGenPass.emit_ln`: append an indented line to the node's meta
slot.  Returns the updated state (ghost `indent_reads` extended by the
`indent_level` value this call read) and the updated meta string. -/
def St.emitLn (st : St) (meta s : String) (indent_delta : Nat) : St × String :=
  ({ st with indent_reads := st.indent_reads ++ [st.indent_level] },
   meta ++ st.emitLnStr s indent_delta)

/-- `PyCodeGenPass.emit`: append a raw string to the node's meta slot. -/
def emitRaw (meta s : String) : String := meta ++ s

/-- A `for i in …: self.emit_ln(node, i.meta["py_code"], …)` loop, as in
`exit_arch_block`, `exit_has_var_list` and `exit_code_block`. -/
def St.emitLnList (st : St) (meta : String) (ss : List String) (indent_delta : Nat) :
    St × String :=
  match ss with
  | [] => (st, meta)
  | s :: rest =>
    let p := st.emitLn meta s indent_delta
    p.1.emitLnList p.2 rest indent_delta

/-- `PyCodeGenPass.access_check`: `if node.access: self.warning(f"Line
{node.line}, Access specifiers not supported in bootstrap Jac.")`. -/
def St.accessCheck (st : St) (line : Nat) (access : AstOpt) : St :=
  if access.isSome then
    st.warn ("Line " ++ toString line ++ ", Access specifiers not supported in bootstrap Jac.")
  else st

/-- Outcome of running a hook or a traversal: either the updated state
together with the updated node / meta, or — when a hook raises across the
traversal boundary — the state at the moment of the raise (its sink
included) together with the exception message. -/
abbrev Emitted := Except (St × String) (St × String)

/-- The exit hook dispatch of `PyCodeGenPass`: given the pass state and a
node whose children have already been processed (post-order traversal),
run the node's `exit_<kind>` handler.  Returns the new state and the
node's final `meta["py_code"]`, or the raised exception (only
`exit_parse` raises).  Each branch transcribes the corresponding handler
of `py_codegen_pass.py`; handlers decorated `@Pass.incomplete` first pass
through `St.incomplete`.  Handlers with an empty body (`exit_assignment`,
`exit_binary_expr`, … and the reference kinds) leave the meta slot as the
empty string written by `enter_node` and touch nothing. -/
def exitS (st : St) (sh : Shape) : Emitted :=
  match sh with
  | .Token _ value =>
    -- exit_token: self.emit(node, node.value)
    .ok (st, emitRaw "" value)
  | .Parse _ =>
    -- exit_parse: self.error("Parse node should not be in this AST!!")
    --             raise ValueError("Parse node should not be in AST after being Built!!")
    .error (st.err "Parse node should not be in this AST!!",
            "Parse node should not be in AST after being Built!!")
  | .Module _ doc body =>
    -- exit_module: emit_ln(node, node.doc.value); emit(node, node.body.meta["py_code"])
    let p := st.emitLn "" doc.tokValue 0
    .ok (p.1, emitRaw p.2 body.metaOf)
  | .Elements elements =>
    -- exit_elements: for i in node.elements: emit(node, i.meta["py_code"])
    .ok (st, String.join elements.metas)
  | .DocString value =>
    -- exit_doc_string: if type(node.value) == ast.Token: emit_ln(node, node.value.value)
    if value.isToken then
      let p := st.emitLn "" value.tokValue 0
      .ok (p.1, p.2)
    else .ok (st, "")
  | .ModuleCode doc body =>
    -- exit_module_code: emit(node, doc.meta); emit(node, body.meta)
    .ok (st, emitRaw (emitRaw "" doc.metaOf) body.metaOf)
  | .Import line lang path «alias» items is_absorb =>
    -- exit_import (@Pass.incomplete)
    let st := st.incomplete
    let st := if lang.tokValue ≠ "py" then
        st.warn ("Line " ++ toString line ++
          ", Importing non-python modules not supported in bootstrap Jac.")
      else st
    let st := if is_absorb then
        st.warn ("Line " ++ toString line ++ ", Includes not supported in bootstrap Jac.")
      else st
    if ¬items.isSome then
      if ¬«alias».isSome then
        let p := st.emitLn "" ("import " ++ path.metaOf) 0
        .ok (p.1, p.2)
      else
        let p := st.emitLn "" ("import " ++ path.metaOf ++ " as " ++ «alias».metaOf) 0
        .ok (p.1, p.2)
    else
      let p := st.emitLn "" ("from " ++ path.metaOf ++ " import " ++ items.metaOf) 0
      .ok (p.1, p.2)
  | .ModulePath path =>
    -- exit_module_path: emit(node, "".join([i.value for i in node.path]))
    .ok (st, String.join path.tokValues)
  | .ModuleItems items =>
    -- exit_module_items: emit(node, ", ".join([i.meta["py_code"] for i in node.items]))
    .ok (st, String.intercalate ", " items.metas)
  | .ModuleItem name «alias» =>
    -- exit_module_item: "name as alias" when the alias is a Token, else "name"
    if «alias».isToken then
      .ok (st, emitRaw "" (name.tokValue ++ " as " ++ «alias».tokValue))
    else
      .ok (st, emitRaw "" name.tokValue)
  | .Architype line name _typ doc access base_classes body =>
    -- exit_architype (@Pass.incomplete): access_check; class header; doc; body
    let st := st.incomplete
    let st := st.accessCheck line access
    let p :=
      if ¬base_classes.isSome then
        st.emitLn "" ("class " ++ name.metaOf ++ ":") 0
      else
        st.emitLn "" ("class " ++ name.metaOf ++ "(" ++ base_classes.metaOf ++ "):") 0
    let q := p.1.emitLn p.2 doc.metaOf 1
    .ok (q.1, emitRaw q.2 body.metaOf)
  | .BaseClasses base_classes =>
    -- exit_base_classes: emit(node, ", ".join([i.value for i in node.base_classes]))
    .ok (st, String.intercalate ", " base_classes.tokValues)
  | .ArchBlock members =>
    -- exit_arch_block (@Pass.incomplete): for i in members: emit_ln(node, i.meta)
    let st := st.incomplete
    let p := st.emitLnList "" members.metas 0
    .ok (p.1, p.2)
  | .ArchHas doc _access vars h_id =>
    -- exit_arch_has: emit_ln(f"def has_{node.h_id}:"); doc (indent 1); vars (indent 1)
    let p := st.emitLn "" ("def has_" ++ toString h_id ++ ":") 0
    let q := p.1.emitLn p.2 doc.metaOf 1
    let r := q.1.emitLn q.2 vars.metaOf 1
    .ok (r.1, r.2)
  | .HasVarList vars =>
    -- exit_has_var_list: for i in vars: emit_ln(node, i.meta)
    let p := st.emitLnList "" vars.metas 0
    .ok (p.1, p.2)
  | .HasVar name type_tag value =>
    -- exit_has_var: "self.name: T = value" or "self.name: T = None"
    if value.isSome then
      .ok (st, emitRaw ""
        ("self." ++ name.tokValue ++ ": " ++ type_tag.metaOf ++ " = " ++ value.metaOf))
    else
      .ok (st, emitRaw ""
        ("self." ++ name.tokValue ++ ": " ++ type_tag.metaOf ++ " = None"))
  | .TypeSpec typ list_nest dict_nest =>
    -- exit_type_spec: Dict[...] / List[...] / bare token
    if dict_nest.isSome then
      .ok (st, emitRaw "" ("Dict[" ++ list_nest.metaOf ++ ", " ++ dict_nest.metaOf ++ "]"))
    else if list_nest.isSome then
      .ok (st, emitRaw "" ("List[" ++ list_nest.metaOf ++ "]"))
    else
      .ok (st, emitRaw "" typ.tokValue)
  | .CodeBlock stmts =>
    -- exit_code_block: emit(node, "\n"); for i in stmts: emit_ln(node, i.meta, indent_delta=1)
    let p := st.emitLnList (emitRaw "" "\n") stmts.metas 1
    .ok (p.1, p.2)
  | .IfStmt condition body elseifs else_body =>
    -- exit_if_stmt
    let p := st.emitLn "" ("if " ++ condition.metaOf ++ ":") 0
    let q := p.1.emitLn p.2 body.metaOf 1
    let r := if elseifs.isSome then q.1.emitLn q.2 elseifs.metaOf 0 else q
    let w := if else_body.isSome then r.1.emitLn r.2 else_body.metaOf 0 else r
    .ok (w.1, w.2)
  | .CtrlStmt ctrl =>
    -- exit_ctrl_stmt (@Pass.incomplete):
    --   skip → self.error("skip is not supported in bootstrap Jac"), no emission;
    --   otherwise emit_ln(node, node.ctrl.value)
    let st := st.incomplete
    if ctrl.tokValue = "skip" then
      .ok (st.err "skip is not supported in bootstrap Jac", "")
    else
      let p := st.emitLn "" ctrl.tokValue 0
      .ok (p.1, p.2)
  | .Assignment _ _ _ => .ok (st, "")
  | .BinaryExpr _ _ _ => .ok (st, "")
  | .UnaryExpr _ _ => .ok (st, "")
  | .IfElseExpr _ _ _ => .ok (st, "")
  | .FuncCall _ _ => .ok (st, "")
  | .AtomTrailer _ _ _ => .ok (st, "")
  | .ListVal _ => .ok (st, "")
  | .ExprList _ => .ok (st, "")
  | .DictVal _ => .ok (st, "")
  | .KVPair _ _ => .ok (st, "")
  | .Comprehension _ _ _ _ _ => .ok (st, "")
  | .IndexSlice _ _ => .ok (st, "")
  | .ParamList _ _ => .ok (st, "")
  | .AssignmentList _ => .ok (st, "")
  | .ArchRef _ _ => .ok (st, "")
  | .HereRef _ => .ok (st, "")
  | .VisitorRef _ => .ok (st, "")

/-- Outcome of traversing one node. -/
abbrev ResA := Except (St × String) (St × Ast)

/-- Outcome of traversing a child list. -/
abbrev ResL := Except (St × String) (St × AstList)

/-- Outcome of traversing an optional child. -/
abbrev ResO := Except (St × String) (St × AstOpt)

/-- Sequencing of traversal steps: run the continuation on the updated
state and processed subtree, or propagate the exception (a raise aborts
the rest of the traversal). -/
def bindR {α β : Type} (r : Except (St × String) (St × α))
    (k : St → α → Except (St × String) (St × β)) : Except (St × String) (St × β) :=
  match r with
  | .error e => .error e
  | .ok (st, a) => k st a

/-- Rebuild the node from its exit hook's output: the node keeps its
shape (children replaced by their processed versions) and receives the
meta string the hook emitted. -/
def liftHook (st : St) (sh : Shape) : ResA :=
  match exitS st sh with
  | .error e => .error e
  | .ok (st', m) => .ok (st', .mk m sh)

mutual

/-- Post-order traversal of the pass over one node, mirroring the pass
framework's `traverse` (`enter_node`, children left to right, then
`exit_node`).  `PyCodeGenPass.enter_node` sets `node.meta["py_code"] =
""`, so the node's incoming meta slot is discarded here; the exit hook
then appends to the freshly reset slot.  Returns the updated pass state
and the node with its new meta (children likewise rewritten), or the
exception that crossed the traversal boundary. -/
def genA (st : St) (t : Ast) : ResA :=
  match t with
  | .mk _ sh => genS st sh

/-- Traverse the children of a node (document order) and run its exit
hook on the result. -/
def genS (st : St) (sh : Shape) : ResA :=
  match sh with
  | .Token name value => liftHook st (.Token name value)
  | .Parse name => liftHook st (.Parse name)
  | .Module name doc body =>
    bindR (genA st doc) fun st1 doc' =>
    bindR (genA st1 body) fun st2 body' =>
    liftHook st2 (.Module name doc' body')
  | .Elements elements =>
    bindR (genL st elements) fun st1 elements' =>
    liftHook st1 (.Elements elements')
  | .DocString value =>
    bindR (genO st value) fun st1 value' =>
    liftHook st1 (.DocString value')
  | .ModuleCode doc body =>
    bindR (genA st doc) fun st1 doc' =>
    bindR (genA st1 body) fun st2 body' =>
    liftHook st2 (.ModuleCode doc' body')
  | .Import line lang path «alias» items is_absorb =>
    bindR (genA st lang) fun st1 lang' =>
    bindR (genA st1 path) fun st2 path' =>
    bindR (genO st2 «alias») fun st3 alias' =>
    bindR (genO st3 items) fun st4 items' =>
    liftHook st4 (.Import line lang' path' alias' items' is_absorb)
  | .ModulePath path =>
    bindR (genL st path) fun st1 path' =>
    liftHook st1 (.ModulePath path')
  | .ModuleItems items =>
    bindR (genL st items) fun st1 items' =>
    liftHook st1 (.ModuleItems items')
  | .ModuleItem name «alias» =>
    bindR (genA st name) fun st1 name' =>
    bindR (genO st1 «alias») fun st2 alias' =>
    liftHook st2 (.ModuleItem name' alias')
  | .Architype line name typ doc access base_classes body =>
    bindR (genA st name) fun st1 name' =>
    bindR (genA st1 typ) fun st2 typ' =>
    bindR (genA st2 doc) fun st3 doc' =>
    bindR (genO st3 access) fun st4 access' =>
    bindR (genO st4 base_classes) fun st5 base_classes' =>
    bindR (genA st5 body) fun st6 body' =>
    liftHook st6 (.Architype line name' typ' doc' access' base_classes' body')
  | .BaseClasses base_classes =>
    bindR (genL st base_classes) fun st1 base_classes' =>
    liftHook st1 (.BaseClasses base_classes')
  | .ArchBlock members =>
    bindR (genL st members) fun st1 members' =>
    liftHook st1 (.ArchBlock members')
  | .ArchHas doc access vars h_id =>
    bindR (genA st doc) fun st1 doc' =>
    bindR (genO st1 access) fun st2 access' =>
    bindR (genA st2 vars) fun st3 vars' =>
    liftHook st3 (.ArchHas doc' access' vars' h_id)
  | .HasVarList vars =>
    bindR (genL st vars) fun st1 vars' =>
    liftHook st1 (.HasVarList vars')
  | .HasVar name type_tag value =>
    bindR (genA st name) fun st1 name' =>
    bindR (genA st1 type_tag) fun st2 type_tag' =>
    bindR (genO st2 value) fun st3 value' =>
    liftHook st3 (.HasVar name' type_tag' value')
  | .TypeSpec typ list_nest dict_nest =>
    bindR (genA st typ) fun st1 typ' =>
    bindR (genO st1 list_nest) fun st2 list_nest' =>
    bindR (genO st2 dict_nest) fun st3 dict_nest' =>
    liftHook st3 (.TypeSpec typ' list_nest' dict_nest')
  | .CodeBlock stmts =>
    bindR (genL st stmts) fun st1 stmts' =>
    liftHook st1 (.CodeBlock stmts')
  | .IfStmt condition body elseifs else_body =>
    bindR (genA st condition) fun st1 condition' =>
    bindR (genA st1 body) fun st2 body' =>
    bindR (genO st2 elseifs) fun st3 elseifs' =>
    bindR (genO st3 else_body) fun st4 else_body' =>
    liftHook st4 (.IfStmt condition' body' elseifs' else_body')
  | .CtrlStmt ctrl =>
    bindR (genA st ctrl) fun st1 ctrl' =>
    liftHook st1 (.CtrlStmt ctrl')
  | .Assignment is_static target value =>
    bindR (genA st target) fun st1 target' =>
    bindR (genA st1 value) fun st2 value' =>
    liftHook st2 (.Assignment is_static target' value')
  | .BinaryExpr left right op =>
    bindR (genA st left) fun st1 left' =>
    bindR (genA st1 right) fun st2 right' =>
    bindR (genA st2 op) fun st3 op' =>
    liftHook st3 (.BinaryExpr left' right' op')
  | .UnaryExpr operand op =>
    bindR (genA st operand) fun st1 operand' =>
    bindR (genA st1 op) fun st2 op' =>
    liftHook st2 (.UnaryExpr operand' op')
  | .IfElseExpr condition value else_value =>
    bindR (genA st condition) fun st1 condition' =>
    bindR (genA st1 value) fun st2 value' =>
    bindR (genA st2 else_value) fun st3 else_value' =>
    liftHook st3 (.IfElseExpr condition' value' else_value')
  | .FuncCall target params =>
    bindR (genA st target) fun st1 target' =>
    bindR (genO st1 params) fun st2 params' =>
    liftHook st2 (.FuncCall target' params')
  | .AtomTrailer target right null_ok =>
    bindR (genA st target) fun st1 target' =>
    bindR (genA st1 right) fun st2 right' =>
    liftHook st2 (.AtomTrailer target' right' null_ok)
  | .ListVal values =>
    bindR (genL st values) fun st1 values' =>
    liftHook st1 (.ListVal values')
  | .ExprList values =>
    bindR (genL st values) fun st1 values' =>
    liftHook st1 (.ExprList values')
  | .DictVal kv_pairs =>
    bindR (genL st kv_pairs) fun st1 kv_pairs' =>
    liftHook st1 (.DictVal kv_pairs')
  | .KVPair key value =>
    bindR (genA st key) fun st1 key' =>
    bindR (genA st1 value) fun st2 value' =>
    liftHook st2 (.KVPair key' value')
  | .Comprehension key_expr out_expr name collection conditional =>
    bindR (genO st key_expr) fun st1 key_expr' =>
    bindR (genA st1 out_expr) fun st2 out_expr' =>
    bindR (genA st2 name) fun st3 name' =>
    bindR (genA st3 collection) fun st4 collection' =>
    bindR (genO st4 conditional) fun st5 conditional' =>
    liftHook st5 (.Comprehension key_expr' out_expr' name' collection' conditional')
  | .IndexSlice start stop =>
    bindR (genA st start) fun st1 start' =>
    bindR (genO st1 stop) fun st2 stop' =>
    liftHook st2 (.IndexSlice start' stop')
  | .ParamList p_args p_kwargs =>
    bindR (genO st p_args) fun st1 p_args' =>
    bindR (genO st1 p_kwargs) fun st2 p_kwargs' =>
    liftHook st2 (.ParamList p_args' p_kwargs')
  | .AssignmentList values =>
    bindR (genL st values) fun st1 values' =>
    liftHook st1 (.AssignmentList values')
  | .ArchRef tag name =>
    bindR (genA st name) fun st1 name' =>
    liftHook st1 (.ArchRef tag name')
  | .HereRef name =>
    bindR (genO st name) fun st1 name' =>
    liftHook st1 (.HereRef name')
  | .VisitorRef name =>
    bindR (genO st name) fun st1 name' =>
    liftHook st1 (.VisitorRef name')

/-- Traverse a child list left to right, threading the pass state. -/
def genL (st : St) (l : AstList) : ResL :=
  match l with
  | .nil => .ok (st, .nil)
  | .cons hd tl =>
    bindR (genA st hd) fun st1 hd' =>
    bindR (genL st1 tl) fun st2 tl' =>
    .ok (st2, .cons hd' tl')

/-- Traverse an optional child. -/
def genO (st : St) (o : AstOpt) : ResO :=
  match o with
  | .none => .ok (st, .none)
  | .some a =>
    bindR (genA st a) fun st1 a' =>
    .ok (st1, .some a')

end

/-- Run the code-generation pass on a tree with a freshly constructed
pass instance (as the schedule does). -/
def runPass (t : Ast) : ResA := genA initSt t

/-- The `meta["py_code"]` slot of the root after running the pass (the
generated target text); `""` when the pass raised. -/
def pyCodeOf (t : Ast) : String :=
  match runPass t with
  | .ok (_, t') => t'.metaOf
  | .error _ => ""

/-- The pass state after running the pass on `t`: on a normal return the
final state, on a raise the state at the moment of the raise (the sink
accumulated so far). -/
def finalState (t : Ast) : St :=
  match runPass t with
  | .ok (st, _) => st
  | .error (st, _) => st

/-- Whether running the pass on `t` let an exception cross the traversal
boundary. -/
def passRaised (t : Ast) : Bool :=
  match runPass t with
  | .ok _ => false
  | .error _ => true

/-- The message of the exception that crossed the traversal boundary. -/
def excMessage (t : Ast) : Option String :=
  match runPass t with
  | .ok _ => Option.none
  | .error (_, m) => Option.some m

/-- Whether this node is a `Token`. -/
def Ast.isToken : Ast → Bool
  | .mk _ (.Token _ _) => true
  | _ => false

/-- Whether every node of the list is a `Token`. -/
def AstList.allTokens : AstList → Bool
  | .nil => true
  | .cons hd tl => hd.isToken && tl.allTokens

mutual

/-- Well-typedness of a tree: every attribute access the exit handlers
perform without a preceding check succeeds, i.e. each child read through
`.value` is a `Token` (`Module.doc`, `Import.lang`, `ModulePath.path[i]`,
`ModuleItem.name`, `BaseClasses.base_classes[i]`, `HasVar.name`,
`TypeSpec.typ`, `CtrlStmt.ctrl`) and `TypeSpec.list_nest` is present
whenever `dict_nest` is (`exit_type_spec` reads `node.list_nest.meta` in
its `dict_nest` branch).  The parser only produces such trees; on any
other tree the Python handlers would raise an `AttributeError` the model
does not reproduce. -/
def WTa : Ast → Bool
  | .mk _ sh => WTs sh

/-- Well-typedness of a shape (see `WTa`). -/
def WTs : Shape → Bool
  | .Token _ _ => true
  | .Parse _ => true
  | .Module _ doc body => doc.isToken && (WTa doc && WTa body)
  | .Elements elements => WTl elements
  | .DocString value => WTo value
  | .ModuleCode doc body => WTa doc && WTa body
  | .Import _ lang path «alias» items _ =>
    lang.isToken && (WTa lang && (WTa path && (WTo «alias» && WTo items)))
  | .ModulePath path => path.allTokens && WTl path
  | .ModuleItems items => WTl items
  | .ModuleItem name «alias» => name.isToken && (WTa name && WTo «alias»)
  | .Architype _ name typ doc access base_classes body =>
    WTa name && (WTa typ && (WTa doc && (WTo access && (WTo base_classes && WTa body))))
  | .BaseClasses base_classes => base_classes.allTokens && WTl base_classes
  | .ArchBlock members => WTl members
  | .ArchHas doc access vars _ => WTa doc && (WTo access && WTa vars)
  | .HasVarList vars => WTl vars
  | .HasVar name type_tag value => name.isToken && (WTa name && (WTa type_tag && WTo value))
  | .TypeSpec typ list_nest dict_nest =>
    typ.isToken && ((!dict_nest.isSome || list_nest.isSome) &&
      (WTa typ && (WTo list_nest && WTo dict_nest)))
  | .CodeBlock stmts => WTl stmts
  | .IfStmt condition body elseifs else_body =>
    WTa condition && (WTa body && (WTo elseifs && WTo else_body))
  | .CtrlStmt ctrl => ctrl.isToken && WTa ctrl
  | .Assignment _ target value => WTa target && WTa value
  | .BinaryExpr left right op => WTa left && (WTa right && WTa op)
  | .UnaryExpr operand op => WTa operand && WTa op
  | .IfElseExpr condition value else_value => WTa condition && (WTa value && WTa else_value)
  | .FuncCall target params => WTa target && WTo params
  | .AtomTrailer target right _ => WTa target && WTa right
  | .ListVal values => WTl values
  | .ExprList values => WTl values
  | .DictVal kv_pairs => WTl kv_pairs
  | .KVPair key value => WTa key && WTa value
  | .Comprehension key_expr out_expr name collection conditional =>
    WTo key_expr && (WTa out_expr && (WTa name && (WTa collection && WTo conditional)))
  | .IndexSlice start stop => WTa start && WTo stop
  | .ParamList p_args p_kwargs => WTo p_args && WTo p_kwargs
  | .AssignmentList values => WTl values
  | .ArchRef _ name => WTa name
  | .HereRef name => WTo name
  | .VisitorRef name => WTo name

/-- Well-typedness of a child list (see `WTa`). -/
def WTl : AstList → Bool
  | .nil => true
  | .cons hd tl => WTa hd && WTl tl

/-- Well-typedness of an optional child (see `WTa`). -/
def WTo : AstOpt → Bool
  | .none => true
  | .some a => WTa a

end

mutual

/-- The tree contains no `Parse` node (the invariant `exit_parse`
enforces: "Parse node should not be in AST after being Built"). -/
def NPa : Ast → Bool
  | .mk _ sh => NPs sh

/-- No `Parse` node in the shape or below it. -/
def NPs : Shape → Bool
  | .Token _ _ => true
  | .Parse _ => false
  | .Module _ doc body => NPa doc && NPa body
  | .Elements elements => NPl elements
  | .DocString value => NPo value
  | .ModuleCode doc body => NPa doc && NPa body
  | .Import _ lang path «alias» items _ => NPa lang && (NPa path && (NPo «alias» && NPo items))
  | .ModulePath path => NPl path
  | .ModuleItems items => NPl items
  | .ModuleItem name «alias» => NPa name && NPo «alias»
  | .Architype _ name typ doc access base_classes body =>
    NPa name && (NPa typ && (NPa doc && (NPo access && (NPo base_classes && NPa body))))
  | .BaseClasses base_classes => NPl base_classes
  | .ArchBlock members => NPl members
  | .ArchHas doc access vars _ => NPa doc && (NPo access && NPa vars)
  | .HasVarList vars => NPl vars
  | .HasVar name type_tag value => NPa name && (NPa type_tag && NPo value)
  | .TypeSpec typ list_nest dict_nest => NPa typ && (NPo list_nest && NPo dict_nest)
  | .CodeBlock stmts => NPl stmts
  | .IfStmt condition body elseifs else_body =>
    NPa condition && (NPa body && (NPo elseifs && NPo else_body))
  | .CtrlStmt ctrl => NPa ctrl
  | .Assignment _ target value => NPa target && NPa value
  | .BinaryExpr left right op => NPa left && (NPa right && NPa op)
  | .UnaryExpr operand op => NPa operand && NPa op
  | .IfElseExpr condition value else_value => NPa condition && (NPa value && NPa else_value)
  | .FuncCall target params => NPa target && NPo params
  | .AtomTrailer target right _ => NPa target && NPa right
  | .ListVal values => NPl values
  | .ExprList values => NPl values
  | .DictVal kv_pairs => NPl kv_pairs
  | .KVPair key value => NPa key && NPa value
  | .Comprehension key_expr out_expr name collection conditional =>
    NPo key_expr && (NPa out_expr && (NPa name && (NPa collection && NPo conditional)))
  | .IndexSlice start stop => NPa start && NPo stop
  | .ParamList p_args p_kwargs => NPo p_args && NPo p_kwargs
  | .AssignmentList values => NPl values
  | .ArchRef _ name => NPa name
  | .HereRef name => NPo name
  | .VisitorRef name => NPo name

/-- No `Parse` node in the list. -/
def NPl : AstList → Bool
  | .nil => true
  | .cons hd tl => NPa hd && NPl tl

/-- No `Parse` node in the optional child. -/
def NPo : AstOpt → Bool
  | .none => true
  | .some a => NPa a

end

/-- The expression node kinds whose exit handlers in
`py_codegen_pass.py` have an empty body: `Assignment`, `BinaryExpr`,
`UnaryExpr`, `IfElseExpr`, `FuncCall`, `AtomTrailer`, `ListVal`,
`ExprList`, `DictVal`, `KVPair`, `Comprehension`, `IndexSlice`,
`ParamList`, `AssignmentList`, the seven reference variants, `HereRef`
and `VisitorRef`. -/
def isExprShape : Shape → Bool
  | .Assignment _ _ _ => true
  | .BinaryExpr _ _ _ => true
  | .UnaryExpr _ _ => true
  | .IfElseExpr _ _ _ => true
  | .FuncCall _ _ => true
  | .AtomTrailer _ _ _ => true
  | .ListVal _ => true
  | .ExprList _ => true
  | .DictVal _ => true
  | .KVPair _ _ => true
  | .Comprehension _ _ _ _ _ => true
  | .IndexSlice _ _ => true
  | .ParamList _ _ => true
  | .AssignmentList _ => true
  | .ArchRef _ _ => true
  | .HereRef _ => true
  | .VisitorRef _ => true
  | _ => false

mutual

/-- A pure expression tree: every node is either a `Token` or one of the
empty-handler expression kinds (`isExprShape`), recursively. -/
def EXa : Ast → Bool
  | .mk _ sh => EXs sh

/-- Pure-expression check on a shape (see `EXa`). -/
def EXs : Shape → Bool
  | .Token _ _ => true
  | .Assignment _ target value => EXa target && EXa value
  | .BinaryExpr left right op => EXa left && (EXa right && EXa op)
  | .UnaryExpr operand op => EXa operand && EXa op
  | .IfElseExpr condition value else_value => EXa condition && (EXa value && EXa else_value)
  | .FuncCall target params => EXa target && EXo params
  | .AtomTrailer target right _ => EXa target && EXa right
  | .ListVal values => EXl values
  | .ExprList values => EXl values
  | .DictVal kv_pairs => EXl kv_pairs
  | .KVPair key value => EXa key && EXa value
  | .Comprehension key_expr out_expr name collection conditional =>
    EXo key_expr && (EXa out_expr && (EXa name && (EXa collection && EXo conditional)))
  | .IndexSlice start stop => EXa start && EXo stop
  | .ParamList p_args p_kwargs => EXo p_args && EXo p_kwargs
  | .AssignmentList values => EXl values
  | .ArchRef _ name => EXa name
  | .HereRef name => EXo name
  | .VisitorRef name => EXo name
  | _ => false

/-- Pure-expression check on a child list. -/
def EXl : AstList → Bool
  | .nil => true
  | .cons hd tl => EXa hd && EXl tl

/-- Pure-expression check on an optional child. -/
def EXo : AstOpt → Bool
  | .none => true
  | .some a => EXa a

end

/-- Unfolding of a successful `bindR` step. -/
theorem bindR_ok_iff {α β : Type} {r : Except (St × String) (St × α)}
    {k : St → α → Except (St × String) (St × β)} {st' : St} {b : β} :
    bindR r k = .ok (st', b) ↔ ∃ st1 a, r = .ok (st1, a) ∧ k st1 a = .ok (st', b) := by
  cases r with
  | error e => simp [bindR]
  | ok p =>
    obtain ⟨st1, a⟩ := p
    simp only [bindR, Except.ok.injEq, Prod.mk.injEq]
    constructor
    · intro h; exact ⟨st1, a, ⟨rfl, rfl⟩, h⟩
    · rintro ⟨s, x, ⟨rfl, rfl⟩, h⟩; exact h

/-- Unfolding of a successful `liftHook` step: the exit hook ran
normally and the node kept its (children-rewritten) shape. -/
theorem liftHook_ok_iff {st : St} {sh : Shape} {st' : St} {t' : Ast} :
    liftHook st sh = .ok (st', t') ↔ ∃ m, exitS st sh = .ok (st', m) ∧ t' = .mk m sh := by
  cases h : exitS st sh with
  | error e => simp [liftHook, h]
  | ok p =>
    obtain ⟨st1, m⟩ := p
    simp only [liftHook, h, Except.ok.injEq, Prod.mk.injEq]
    constructor
    · rintro ⟨rfl, rfl⟩; exact ⟨m, ⟨rfl, rfl⟩, rfl⟩
    · rintro ⟨m', ⟨rfl, rfl⟩, rfl⟩; exact ⟨rfl, rfl⟩

/-- The pass state an outcome carries: the final state on a normal
return, the state at the raise for an exception. -/
def stFin {α : Type} : Except (St × String) (St × α) → St
  | .ok (st, _) => st
  | .error (st, _) => st

/-- The key state invariant behind the indentation machinery: the
mutable `indent_level` holds `0` and every `indent_level` value read so
far by `emit_ln` was `0`.  `PyCodeGenPass.__init__` establishes it and —
since no statement of the pass ever assigns `indent_level` — every
handler preserves it. -/
def Flat (st : St) : Prop :=
  st.indent_size = 4 ∧ st.indent_level = 0 ∧ ∀ r ∈ st.indent_reads, r = 0

theorem flat_initSt : Flat initSt := by
  refine ⟨rfl, rfl, ?_⟩
  simp [initSt]

theorem flat_warn {st : St} (m : String) (h : Flat st) : Flat (st.warn m) := by
  exact ⟨h.1, h.2.1, fun r hr => h.2.2 r (by simpa [St.warn] using hr)⟩

theorem flat_err {st : St} (m : String) (h : Flat st) : Flat (st.err m) := by
  exact ⟨h.1, h.2.1, fun r hr => h.2.2 r (by simpa [St.err] using hr)⟩

theorem flat_incomplete {st : St} (h : Flat st) : Flat st.incomplete :=
  flat_warn _ h

theorem flat_accessCheck {st : St} (line : Nat) (access : AstOpt) (h : Flat st) :
    Flat (st.accessCheck line access) := by
  unfold St.accessCheck
  split
  · exact flat_warn _ h
  · exact h

theorem flat_emitLn {st : St} (meta s : String) (d : Nat) (h : Flat st) :
    Flat (st.emitLn meta s d).1 := by
  refine ⟨h.1, h.2.1, fun r hr => ?_⟩
  simp only [St.emitLn, List.mem_append, List.mem_singleton] at hr
  rcases hr with hr | rfl
  · exact h.2.2 r hr
  · exact h.2.1

theorem flat_emitLnList {st : St} (meta : String) (ss : List String) (d : Nat)
    (h : Flat st) : Flat (st.emitLnList meta ss d).1 := by
  induction ss generalizing st meta with
  | nil => simpa [St.emitLnList] using h
  | cons s rest ih =>
    simp only [St.emitLnList]
    exact ih _ (flat_emitLn _ _ _ h)

/-- Every exit hook preserves `Flat`: no handler assigns
`indent_level`, and each `emit_ln` reads the unchanged `0`. -/
theorem exitS_flat (st : St) (sh : Shape) (h : Flat st) : Flat (stFin (exitS st sh)) := by
  cases sh <;> simp only [exitS] <;> (repeat' split) <;> simp only [stFin] <;>
    solve_by_elim [flat_warn, flat_err, flat_incomplete, flat_accessCheck,
      flat_emitLn, flat_emitLnList]

theorem stFin_liftHook (st : St) (sh : Shape) :
    stFin (liftHook st sh) = stFin (exitS st sh) := by
  cases h : exitS st sh with
  | error e => simp [liftHook, h, stFin]
  | ok p => obtain ⟨s, m⟩ := p; simp [liftHook, h, stFin]

/-- `exitS` only raises on `Parse` nodes; every other handler returns. -/
theorem exitS_ok (st : St) (sh : Shape) (h : ∀ n, sh ≠ .Parse n) :
    ∃ st' m, exitS st sh = .ok (st', m) := by
  cases sh <;> simp only [exitS] <;> (repeat' split) <;>
    first
      | exact ⟨_, _, rfl⟩
      | exact absurd rfl (h _)

/-- The empty-bodied expression handlers: exit leaves the meta slot as
the `""` written by `enter_node` and does not touch the state. -/
theorem exitS_expr (st : St) (sh : Shape) (h : isExprShape sh = true) :
    exitS st sh = .ok (st, "") := by
  cases sh <;> simp_all [isExprShape, exitS]

mutual

/-- Rerunning the pass on a tree it has already rewritten reproduces the
same final state and the same tree: the output of `genA` is a fixed
point, because `enter_node` resets every `py_code` slot before the exit
hooks recompute it (rather than appending to the previous run's
output). -/
theorem genA_fix (t : Ast) :
    ∀ st st' t', genA st t = .ok (st', t') → genA st t' = .ok (st', t') :=
  match t with
  | .mk _ sh => by
    intro st st' t' h
    exact genS_fix sh st st' t' (by simpa [genA] using h)

/-- Fixed-point property of `genS` (see `genA_fix`). -/
theorem genS_fix (sh : Shape) :
    ∀ st st' t', genS st sh = .ok (st', t') → genA st t' = .ok (st', t') :=
  match sh with
  | .Token name value => by
    intro st st' t' h
    simp only [genS] at h
    obtain ⟨M, hex, rfl⟩ := liftHook_ok_iff.mp h
    simp only [genA, genS, liftHook, hex]
  | .Parse name => by
    intro st st' t' h
    simp [genS, liftHook, exitS] at h
  | .Module name c1 c2 => by
    intro st st' t' h
    simp only [genS] at h
    obtain ⟨s1, c1', h1, h⟩ := bindR_ok_iff.mp h
    obtain ⟨s2, c2', h2, h⟩ := bindR_ok_iff.mp h
    obtain ⟨M, hex, rfl⟩ := liftHook_ok_iff.mp h
    have r1 := genA_fix c1 st s1 c1' h1
    have r2 := genA_fix c2 s1 s2 c2' h2
    simp only [genA, genS, r1, r2, bindR, liftHook, hex]
  | .Elements c1 => by
    intro st st' t' h
    simp only [genS] at h
    obtain ⟨s1, c1', h1, h⟩ := bindR_ok_iff.mp h
    obtain ⟨M, hex, rfl⟩ := liftHook_ok_iff.mp h
    have r1 := genL_fix c1 st s1 c1' h1
    simp only [genA, genS, r1, bindR, liftHook, hex]
  | .DocString c1 => by
    intro st st' t' h
    simp only [genS] at h
    obtain ⟨s1, c1', h1, h⟩ := bindR_ok_iff.mp h
    obtain ⟨M, hex, rfl⟩ := liftHook_ok_iff.mp h
    have r1 := genO_fix c1 st s1 c1' h1
    simp only [genA, genS, r1, bindR, liftHook, hex]
  | .ModuleCode c1 c2 => by
    intro st st' t' h
    simp only [genS] at h
    obtain ⟨s1, c1', h1, h⟩ := bindR_ok_iff.mp h
    obtain ⟨s2, c2', h2, h⟩ := bindR_ok_iff.mp h
    obtain ⟨M, hex, rfl⟩ := liftHook_ok_iff.mp h
    have r1 := genA_fix c1 st s1 c1' h1
    have r2 := genA_fix c2 s1 s2 c2' h2
    simp only [genA, genS, r1, r2, bindR, liftHook, hex]
  | .Import line c1 c2 c3 c4 is_absorb => by
    intro st st' t' h
    simp only [genS] at h
    obtain ⟨s1, c1', h1, h⟩ := bindR_ok_iff.mp h
    obtain ⟨s2, c2', h2, h⟩ := bindR_ok_iff.mp h
    obtain ⟨s3, c3', h3, h⟩ := bindR_ok_iff.mp h
    obtain ⟨s4, c4', h4, h⟩ := bindR_ok_iff.mp h
    obtain ⟨M, hex, rfl⟩ := liftHook_ok_iff.mp h
    have r1 := genA_fix c1 st s1 c1' h1
    have r2 := genA_fix c2 s1 s2 c2' h2
    have r3 := genO_fix c3 s2 s3 c3' h3
    have r4 := genO_fix c4 s3 s4 c4' h4
    simp only [genA, genS, r1, r2, r3, r4, bindR, liftHook, hex]
  | .ModulePath c1 => by
    intro st st' t' h
    simp only [genS] at h
    obtain ⟨s1, c1', h1, h⟩ := bindR_ok_iff.mp h
    obtain ⟨M, hex, rfl⟩ := liftHook_ok_iff.mp h
    have r1 := genL_fix c1 st s1 c1' h1
    simp only [genA, genS, r1, bindR, liftHook, hex]
  | .ModuleItems c1 => by
    intro st st' t' h
    simp only [genS] at h
    obtain ⟨s1, c1', h1, h⟩ := bindR_ok_iff.mp h
    obtain ⟨M, hex, rfl⟩ := liftHook_ok_iff.mp h
    have r1 := genL_fix c1 st s1 c1' h1
    simp only [genA, genS, r1, bindR, liftHook, hex]
  | .ModuleItem c1 c2 => by
    intro st st' t' h
    simp only [genS] at h
    obtain ⟨s1, c1', h1, h⟩ := bindR_ok_iff.mp h
    obtain ⟨s2, c2', h2, h⟩ := bindR_ok_iff.mp h
    obtain ⟨M, hex, rfl⟩ := liftHook_ok_iff.mp h
    have r1 := genA_fix c1 st s1 c1' h1
    have r2 := genO_fix c2 s1 s2 c2' h2
    simp only [genA, genS, r1, r2, bindR, liftHook, hex]
  | .Architype line c1 c2 c3 c4 c5 c6 => by
    intro st st' t' h
    simp only [genS] at h
    obtain ⟨s1, c1', h1, h⟩ := bindR_ok_iff.mp h
    obtain ⟨s2, c2', h2, h⟩ := bindR_ok_iff.mp h
    obtain ⟨s3, c3', h3, h⟩ := bindR_ok_iff.mp h
    obtain ⟨s4, c4', h4, h⟩ := bindR_ok_iff.mp h
    obtain ⟨s5, c5', h5, h⟩ := bindR_ok_iff.mp h
    obtain ⟨s6, c6', h6, h⟩ := bindR_ok_iff.mp h
    obtain ⟨M, hex, rfl⟩ := liftHook_ok_iff.mp h
    have r1 := genA_fix c1 st s1 c1' h1
    have r2 := genA_fix c2 s1 s2 c2' h2
    have r3 := genA_fix c3 s2 s3 c3' h3
    have r4 := genO_fix c4 s3 s4 c4' h4
    have r5 := genO_fix c5 s4 s5 c5' h5
    have r6 := genA_fix c6 s5 s6 c6' h6
    simp only [genA, genS, r1, r2, r3, r4, r5, r6, bindR, liftHook, hex]
  | .BaseClasses c1 => by
    intro st st' t' h
    simp only [genS] at h
    obtain ⟨s1, c1', h1, h⟩ := bindR_ok_iff.mp h
    obtain ⟨M, hex, rfl⟩ := liftHook_ok_iff.mp h
    have r1 := genL_fix c1 st s1 c1' h1
    simp only [genA, genS, r1, bindR, liftHook, hex]
  | .ArchBlock c1 => by
    intro st st' t' h
    simp only [genS] at h
    obtain ⟨s1, c1', h1, h⟩ := bindR_ok_iff.mp h
    obtain ⟨M, hex, rfl⟩ := liftHook_ok_iff.mp h
    have r1 := genL_fix c1 st s1 c1' h1
    simp only [genA, genS, r1, bindR, liftHook, hex]
  | .ArchHas c1 c2 c3 h_id => by
    intro st st' t' h
    simp only [genS] at h
    obtain ⟨s1, c1', h1, h⟩ := bindR_ok_iff.mp h
    obtain ⟨s2, c2', h2, h⟩ := bindR_ok_iff.mp h
    obtain ⟨s3, c3', h3, h⟩ := bindR_ok_iff.mp h
    obtain ⟨M, hex, rfl⟩ := liftHook_ok_iff.mp h
    have r1 := genA_fix c1 st s1 c1' h1
    have r2 := genO_fix c2 s1 s2 c2' h2
    have r3 := genA_fix c3 s2 s3 c3' h3
    simp only [genA, genS, r1, r2, r3, bindR, liftHook, hex]
  | .HasVarList c1 => by
    intro st st' t' h
    simp only [genS] at h
    obtain ⟨s1, c1', h1, h⟩ := bindR_ok_iff.mp h
    obtain ⟨M, hex, rfl⟩ := liftHook_ok_iff.mp h
    have r1 := genL_fix c1 st s1 c1' h1
    simp only [genA, genS, r1, bindR, liftHook, hex]
  | .HasVar c1 c2 c3 => by
    intro st st' t' h
    simp only [genS] at h
    obtain ⟨s1, c1', h1, h⟩ := bindR_ok_iff.mp h
    obtain ⟨s2, c2', h2, h⟩ := bindR_ok_iff.mp h
    obtain ⟨s3, c3', h3, h⟩ := bindR_ok_iff.mp h
    obtain ⟨M, hex, rfl⟩ := liftHook_ok_iff.mp h
    have r1 := genA_fix c1 st s1 c1' h1
    have r2 := genA_fix c2 s1 s2 c2' h2
    have r3 := genO_fix c3 s2 s3 c3' h3
    simp only [genA, genS, r1, r2, r3, bindR, liftHook, hex]
  | .TypeSpec c1 c2 c3 => by
    intro st st' t' h
    simp only [genS] at h
    obtain ⟨s1, c1', h1, h⟩ := bindR_ok_iff.mp h
    obtain ⟨s2, c2', h2, h⟩ := bindR_ok_iff.mp h
    obtain ⟨s3, c3', h3, h⟩ := bindR_ok_iff.mp h
    obtain ⟨M, hex, rfl⟩ := liftHook_ok_iff.mp h
    have r1 := genA_fix c1 st s1 c1' h1
    have r2 := genO_fix c2 s1 s2 c2' h2
    have r3 := genO_fix c3 s2 s3 c3' h3
    simp only [genA, genS, r1, r2, r3, bindR, liftHook, hex]
  | .CodeBlock c1 => by
    intro st st' t' h
    simp only [genS] at h
    obtain ⟨s1, c1', h1, h⟩ := bindR_ok_iff.mp h
    obtain ⟨M, hex, rfl⟩ := liftHook_ok_iff.mp h
    have r1 := genL_fix c1 st s1 c1' h1
    simp only [genA, genS, r1, bindR, liftHook, hex]
  | .IfStmt c1 c2 c3 c4 => by
    intro st st' t' h
    simp only [genS] at h
    obtain ⟨s1, c1', h1, h⟩ := bindR_ok_iff.mp h
    obtain ⟨s2, c2', h2, h⟩ := bindR_ok_iff.mp h
    obtain ⟨s3, c3', h3, h⟩ := bindR_ok_iff.mp h
    obtain ⟨s4, c4', h4, h⟩ := bindR_ok_iff.mp h
    obtain ⟨M, hex, rfl⟩ := liftHook_ok_iff.mp h
    have r1 := genA_fix c1 st s1 c1' h1
    have r2 := genA_fix c2 s1 s2 c2' h2
    have r3 := genO_fix c3 s2 s3 c3' h3
    have r4 := genO_fix c4 s3 s4 c4' h4
    simp only [genA, genS, r1, r2, r3, r4, bindR, liftHook, hex]
  | .CtrlStmt c1 => by
    intro st st' t' h
    simp only [genS] at h
    obtain ⟨s1, c1', h1, h⟩ := bindR_ok_iff.mp h
    obtain ⟨M, hex, rfl⟩ := liftHook_ok_iff.mp h
    have r1 := genA_fix c1 st s1 c1' h1
    simp only [genA, genS, r1, bindR, liftHook, hex]
  | .Assignment is_static c1 c2 => by
    intro st st' t' h
    simp only [genS] at h
    obtain ⟨s1, c1', h1, h⟩ := bindR_ok_iff.mp h
    obtain ⟨s2, c2', h2, h⟩ := bindR_ok_iff.mp h
    obtain ⟨M, hex, rfl⟩ := liftHook_ok_iff.mp h
    have r1 := genA_fix c1 st s1 c1' h1
    have r2 := genA_fix c2 s1 s2 c2' h2
    simp only [genA, genS, r1, r2, bindR, liftHook, hex]
  | .BinaryExpr c1 c2 c3 => by
    intro st st' t' h
    simp only [genS] at h
    obtain ⟨s1, c1', h1, h⟩ := bindR_ok_iff.mp h
    obtain ⟨s2, c2', h2, h⟩ := bindR_ok_iff.mp h
    obtain ⟨s3, c3', h3, h⟩ := bindR_ok_iff.mp h
    obtain ⟨M, hex, rfl⟩ := liftHook_ok_iff.mp h
    have r1 := genA_fix c1 st s1 c1' h1
    have r2 := genA_fix c2 s1 s2 c2' h2
    have r3 := genA_fix c3 s2 s3 c3' h3
    simp only [genA, genS, r1, r2, r3, bindR, liftHook, hex]
  | .UnaryExpr c1 c2 => by
    intro st st' t' h
    simp only [genS] at h
    obtain ⟨s1, c1', h1, h⟩ := bindR_ok_iff.mp h
    obtain ⟨s2, c2', h2, h⟩ := bindR_ok_iff.mp h
    obtain ⟨M, hex, rfl⟩ := liftHook_ok_iff.mp h
    have r1 := genA_fix c1 st s1 c1' h1
    have r2 := genA_fix c2 s1 s2 c2' h2
    simp only [genA, genS, r1, r2, bindR, liftHook, hex]
  | .IfElseExpr c1 c2 c3 => by
    intro st st' t' h
    simp only [genS] at h
    obtain ⟨s1, c1', h1, h⟩ := bindR_ok_iff.mp h
    obtain ⟨s2, c2', h2, h⟩ := bindR_ok_iff.mp h
    obtain ⟨s3, c3', h3, h⟩ := bindR_ok_iff.mp h
    obtain ⟨M, hex, rfl⟩ := liftHook_ok_iff.mp h
    have r1 := genA_fix c1 st s1 c1' h1
    have r2 := genA_fix c2 s1 s2 c2' h2
    have r3 := genA_fix c3 s2 s3 c3' h3
    simp only [genA, genS, r1, r2, r3, bindR, liftHook, hex]
  | .FuncCall c1 c2 => by
    intro st st' t' h
    simp only [genS] at h
    obtain ⟨s1, c1', h1, h⟩ := bindR_ok_iff.mp h
    obtain ⟨s2, c2', h2, h⟩ := bindR_ok_iff.mp h
    obtain ⟨M, hex, rfl⟩ := liftHook_ok_iff.mp h
    have r1 := genA_fix c1 st s1 c1' h1
    have r2 := genO_fix c2 s1 s2 c2' h2
    simp only [genA, genS, r1, r2, bindR, liftHook, hex]
  | .AtomTrailer c1 c2 null_ok => by
    intro st st' t' h
    simp only [genS] at h
    obtain ⟨s1, c1', h1, h⟩ := bindR_ok_iff.mp h
    obtain ⟨s2, c2', h2, h⟩ := bindR_ok_iff.mp h
    obtain ⟨M, hex, rfl⟩ := liftHook_ok_iff.mp h
    have r1 := genA_fix c1 st s1 c1' h1
    have r2 := genA_fix c2 s1 s2 c2' h2
    simp only [genA, genS, r1, r2, bindR, liftHook, hex]
  | .ListVal c1 => by
    intro st st' t' h
    simp only [genS] at h
    obtain ⟨s1, c1', h1, h⟩ := bindR_ok_iff.mp h
    obtain ⟨M, hex, rfl⟩ := liftHook_ok_iff.mp h
    have r1 := genL_fix c1 st s1 c1' h1
    simp only [genA, genS, r1, bindR, liftHook, hex]
  | .ExprList c1 => by
    intro st st' t' h
    simp only [genS] at h
    obtain ⟨s1, c1', h1, h⟩ := bindR_ok_iff.mp h
    obtain ⟨M, hex, rfl⟩ := liftHook_ok_iff.mp h
    have r1 := genL_fix c1 st s1 c1' h1
    simp only [genA, genS, r1, bindR, liftHook, hex]
  | .DictVal c1 => by
    intro st st' t' h
    simp only [genS] at h
    obtain ⟨s1, c1', h1, h⟩ := bindR_ok_iff.mp h
    obtain ⟨M, hex, rfl⟩ := liftHook_ok_iff.mp h
    have r1 := genL_fix c1 st s1 c1' h1
    simp only [genA, genS, r1, bindR, liftHook, hex]
  | .KVPair c1 c2 => by
    intro st st' t' h
    simp only [genS] at h
    obtain ⟨s1, c1', h1, h⟩ := bindR_ok_iff.mp h
    obtain ⟨s2, c2', h2, h⟩ := bindR_ok_iff.mp h
    obtain ⟨M, hex, rfl⟩ := liftHook_ok_iff.mp h
    have r1 := genA_fix c1 st s1 c1' h1
    have r2 := genA_fix c2 s1 s2 c2' h2
    simp only [genA, genS, r1, r2, bindR, liftHook, hex]
  | .Comprehension c1 c2 c3 c4 c5 => by
    intro st st' t' h
    simp only [genS] at h
    obtain ⟨s1, c1', h1, h⟩ := bindR_ok_iff.mp h
    obtain ⟨s2, c2', h2, h⟩ := bindR_ok_iff.mp h
    obtain ⟨s3, c3', h3, h⟩ := bindR_ok_iff.mp h
    obtain ⟨s4, c4', h4, h⟩ := bindR_ok_iff.mp h
    obtain ⟨s5, c5', h5, h⟩ := bindR_ok_iff.mp h
    obtain ⟨M, hex, rfl⟩ := liftHook_ok_iff.mp h
    have r1 := genO_fix c1 st s1 c1' h1
    have r2 := genA_fix c2 s1 s2 c2' h2
    have r3 := genA_fix c3 s2 s3 c3' h3
    have r4 := genA_fix c4 s3 s4 c4' h4
    have r5 := genO_fix c5 s4 s5 c5' h5
    simp only [genA, genS, r1, r2, r3, r4, r5, bindR, liftHook, hex]
  | .IndexSlice c1 c2 => by
    intro st st' t' h
    simp only [genS] at h
    obtain ⟨s1, c1', h1, h⟩ := bindR_ok_iff.mp h
    obtain ⟨s2, c2', h2, h⟩ := bindR_ok_iff.mp h
    obtain ⟨M, hex, rfl⟩ := liftHook_ok_iff.mp h
    have r1 := genA_fix c1 st s1 c1' h1
    have r2 := genO_fix c2 s1 s2 c2' h2
    simp only [genA, genS, r1, r2, bindR, liftHook, hex]
  | .ParamList c1 c2 => by
    intro st st' t' h
    simp only [genS] at h
    obtain ⟨s1, c1', h1, h⟩ := bindR_ok_iff.mp h
    obtain ⟨s2, c2', h2, h⟩ := bindR_ok_iff.mp h
    obtain ⟨M, hex, rfl⟩ := liftHook_ok_iff.mp h
    have r1 := genO_fix c1 st s1 c1' h1
    have r2 := genO_fix c2 s1 s2 c2' h2
    simp only [genA, genS, r1, r2, bindR, liftHook, hex]
  | .AssignmentList c1 => by
    intro st st' t' h
    simp only [genS] at h
    obtain ⟨s1, c1', h1, h⟩ := bindR_ok_iff.mp h
    obtain ⟨M, hex, rfl⟩ := liftHook_ok_iff.mp h
    have r1 := genL_fix c1 st s1 c1' h1
    simp only [genA, genS, r1, bindR, liftHook, hex]
  | .ArchRef tag c1 => by
    intro st st' t' h
    simp only [genS] at h
    obtain ⟨s1, c1', h1, h⟩ := bindR_ok_iff.mp h
    obtain ⟨M, hex, rfl⟩ := liftHook_ok_iff.mp h
    have r1 := genA_fix c1 st s1 c1' h1
    simp only [genA, genS, r1, bindR, liftHook, hex]
  | .HereRef c1 => by
    intro st st' t' h
    simp only [genS] at h
    obtain ⟨s1, c1', h1, h⟩ := bindR_ok_iff.mp h
    obtain ⟨M, hex, rfl⟩ := liftHook_ok_iff.mp h
    have r1 := genO_fix c1 st s1 c1' h1
    simp only [genA, genS, r1, bindR, liftHook, hex]
  | .VisitorRef c1 => by
    intro st st' t' h
    simp only [genS] at h
    obtain ⟨s1, c1', h1, h⟩ := bindR_ok_iff.mp h
    obtain ⟨M, hex, rfl⟩ := liftHook_ok_iff.mp h
    have r1 := genO_fix c1 st s1 c1' h1
    simp only [genA, genS, r1, bindR, liftHook, hex]

/-- Fixed-point property of `genL` (see `genA_fix`). -/
theorem genL_fix (l : AstList) :
    ∀ st st' l', genL st l = .ok (st', l') → genL st l' = .ok (st', l') :=
  match l with
  | .nil => by
    intro st st' l' h
    simp only [genL, Except.ok.injEq, Prod.mk.injEq] at h
    obtain ⟨rfl, rfl⟩ := h
    simp [genL]
  | .cons hd tl => by
    intro st st' l' h
    simp only [genL] at h
    obtain ⟨s1, hd', h1, h⟩ := bindR_ok_iff.mp h
    obtain ⟨s2, tl', h2, h⟩ := bindR_ok_iff.mp h
    simp only [Except.ok.injEq, Prod.mk.injEq] at h
    obtain ⟨rfl, rfl⟩ := h
    have r1 := genA_fix hd st s1 hd' h1
    have r2 := genL_fix tl s1 s2 tl' h2
    simp only [genL, r1, r2, bindR]

/-- Fixed-point property of `genO` (see `genA_fix`). -/
theorem genO_fix (o : AstOpt) :
    ∀ st st' o', genO st o = .ok (st', o') → genO st o' = .ok (st', o') :=
  match o with
  | .none => by
    intro st st' o' h
    simp only [genO, Except.ok.injEq, Prod.mk.injEq] at h
    obtain ⟨rfl, rfl⟩ := h
    simp [genO]
  | .some a => by
    intro st st' o' h
    simp only [genO] at h
    obtain ⟨s1, a', h1, h⟩ := bindR_ok_iff.mp h
    simp only [Except.ok.injEq, Prod.mk.injEq] at h
    obtain ⟨rfl, rfl⟩ := h
    have r1 := genA_fix a st s1 a' h1
    simp only [genO, r1, bindR]

end

mutual

/-- The pass never changes `indent_level`: starting from a state
satisfying `Flat` (level `0`, all recorded reads `0`), the state after
traversing any tree — including the state at the moment of a raise —
still satisfies it.  Nothing in `PyCodeGenPass` assigns `indent_level`,
so every `emit_ln`, in particular those emitting a nested block body,
reads indentation level `0`. -/
theorem genA_flat (t : Ast) : ∀ st, Flat st → Flat (stFin (genA st t)) :=
  match t with
  | .mk _ sh => by
    intro st h0
    simpa [genA] using genS_flat sh st h0

/-- `Flat` preservation for `genS` (see `genA_flat`). -/
theorem genS_flat (sh : Shape) : ∀ st, Flat st → Flat (stFin (genS st sh)) :=
  match sh with
  | .Token name value => by
    intro st h0
    simp only [genS]
    rw [stFin_liftHook]
    exact exitS_flat _ _ h0
  | .Parse name => by
    intro st h0
    simp only [genS]
    rw [stFin_liftHook]
    exact exitS_flat _ _ h0
  | .Module name c1 c2 => by
    intro st h0
    have i1 := genA_flat c1 st h0
    cases h1 : genA st c1 with
    | error e =>
      rw [h1] at i1
      simpa [genS, bindR, h1, stFin] using i1
    | ok p1 =>
      obtain ⟨s1, c1'⟩ := p1
      rw [h1] at i1
      simp only [stFin] at i1
      have i2 := genA_flat c2 s1 i1
      cases h2 : genA s1 c2 with
      | error e =>
        rw [h2] at i2
        simpa [genS, bindR, h1, h2, stFin] using i2
      | ok p2 =>
        obtain ⟨s2, c2'⟩ := p2
        rw [h2] at i2
        simp only [stFin] at i2
        simp only [genS, bindR, h1, h2]
        rw [stFin_liftHook]
        exact exitS_flat _ _ i2
  | .Elements c1 => by
    intro st h0
    have i1 := genL_flat c1 st h0
    cases h1 : genL st c1 with
    | error e =>
      rw [h1] at i1
      simpa [genS, bindR, h1, stFin] using i1
    | ok p1 =>
      obtain ⟨s1, c1'⟩ := p1
      rw [h1] at i1
      simp only [stFin] at i1
      simp only [genS, bindR, h1]
      rw [stFin_liftHook]
      exact exitS_flat _ _ i1
  | .DocString c1 => by
    intro st h0
    have i1 := genO_flat c1 st h0
    cases h1 : genO st c1 with
    | error e =>
      rw [h1] at i1
      simpa [genS, bindR, h1, stFin] using i1
    | ok p1 =>
      obtain ⟨s1, c1'⟩ := p1
      rw [h1] at i1
      simp only [stFin] at i1
      simp only [genS, bindR, h1]
      rw [stFin_liftHook]
      exact exitS_flat _ _ i1
  | .ModuleCode c1 c2 => by
    intro st h0
    have i1 := genA_flat c1 st h0
    cases h1 : genA st c1 with
    | error e =>
      rw [h1] at i1
      simpa [genS, bindR, h1, stFin] using i1
    | ok p1 =>
      obtain ⟨s1, c1'⟩ := p1
      rw [h1] at i1
      simp only [stFin] at i1
      have i2 := genA_flat c2 s1 i1
      cases h2 : genA s1 c2 with
      | error e =>
        rw [h2] at i2
        simpa [genS, bindR, h1, h2, stFin] using i2
      | ok p2 =>
        obtain ⟨s2, c2'⟩ := p2
        rw [h2] at i2
        simp only [stFin] at i2
        simp only [genS, bindR, h1, h2]
        rw [stFin_liftHook]
        exact exitS_flat _ _ i2
  | .Import line c1 c2 c3 c4 is_absorb => by
    intro st h0
    have i1 := genA_flat c1 st h0
    cases h1 : genA st c1 with
    | error e =>
      rw [h1] at i1
      simpa [genS, bindR, h1, stFin] using i1
    | ok p1 =>
      obtain ⟨s1, c1'⟩ := p1
      rw [h1] at i1
      simp only [stFin] at i1
      have i2 := genA_flat c2 s1 i1
      cases h2 : genA s1 c2 with
      | error e =>
        rw [h2] at i2
        simpa [genS, bindR, h1, h2, stFin] using i2
      | ok p2 =>
        obtain ⟨s2, c2'⟩ := p2
        rw [h2] at i2
        simp only [stFin] at i2
        have i3 := genO_flat c3 s2 i2
        cases h3 : genO s2 c3 with
        | error e =>
          rw [h3] at i3
          simpa [genS, bindR, h1, h2, h3, stFin] using i3
        | ok p3 =>
          obtain ⟨s3, c3'⟩ := p3
          rw [h3] at i3
          simp only [stFin] at i3
          have i4 := genO_flat c4 s3 i3
          cases h4 : genO s3 c4 with
          | error e =>
            rw [h4] at i4
            simpa [genS, bindR, h1, h2, h3, h4, stFin] using i4
          | ok p4 =>
            obtain ⟨s4, c4'⟩ := p4
            rw [h4] at i4
            simp only [stFin] at i4
            simp only [genS, bindR, h1, h2, h3, h4]
            rw [stFin_liftHook]
            exact exitS_flat _ _ i4
  | .ModulePath c1 => by
    intro st h0
    have i1 := genL_flat c1 st h0
    cases h1 : genL st c1 with
    | error e =>
      rw [h1] at i1
      simpa [genS, bindR, h1, stFin] using i1
    | ok p1 =>
      obtain ⟨s1, c1'⟩ := p1
      rw [h1] at i1
      simp only [stFin] at i1
      simp only [genS, bindR, h1]
      rw [stFin_liftHook]
      exact exitS_flat _ _ i1
  | .ModuleItems c1 => by
    intro st h0
    have i1 := genL_flat c1 st h0
    cases h1 : genL st c1 with
    | error e =>
      rw [h1] at i1
      simpa [genS, bindR, h1, stFin] using i1
    | ok p1 =>
      obtain ⟨s1, c1'⟩ := p1
      rw [h1] at i1
      simp only [stFin] at i1
      simp only [genS, bindR, h1]
      rw [stFin_liftHook]
      exact exitS_flat _ _ i1
  | .ModuleItem c1 c2 => by
    intro st h0
    have i1 := genA_flat c1 st h0
    cases h1 : genA st c1 with
    | error e =>
      rw [h1] at i1
      simpa [genS, bindR, h1, stFin] using i1
    | ok p1 =>
      obtain ⟨s1, c1'⟩ := p1
      rw [h1] at i1
      simp only [stFin] at i1
      have i2 := genO_flat c2 s1 i1
      cases h2 : genO s1 c2 with
      | error e =>
        rw [h2] at i2
        simpa [genS, bindR, h1, h2, stFin] using i2
      | ok p2 =>
        obtain ⟨s2, c2'⟩ := p2
        rw [h2] at i2
        simp only [stFin] at i2
        simp only [genS, bindR, h1, h2]
        rw [stFin_liftHook]
        exact exitS_flat _ _ i2
  | .Architype line c1 c2 c3 c4 c5 c6 => by
    intro st h0
    have i1 := genA_flat c1 st h0
    cases h1 : genA st c1 with
    | error e =>
      rw [h1] at i1
      simpa [genS, bindR, h1, stFin] using i1
    | ok p1 =>
      obtain ⟨s1, c1'⟩ := p1
      rw [h1] at i1
      simp only [stFin] at i1
      have i2 := genA_flat c2 s1 i1
      cases h2 : genA s1 c2 with
      | error e =>
        rw [h2] at i2
        simpa [genS, bindR, h1, h2, stFin] using i2
      | ok p2 =>
        obtain ⟨s2, c2'⟩ := p2
        rw [h2] at i2
        simp only [stFin] at i2
        have i3 := genA_flat c3 s2 i2
        cases h3 : genA s2 c3 with
        | error e =>
          rw [h3] at i3
          simpa [genS, bindR, h1, h2, h3, stFin] using i3
        | ok p3 =>
          obtain ⟨s3, c3'⟩ := p3
          rw [h3] at i3
          simp only [stFin] at i3
          have i4 := genO_flat c4 s3 i3
          cases h4 : genO s3 c4 with
          | error e =>
            rw [h4] at i4
            simpa [genS, bindR, h1, h2, h3, h4, stFin] using i4
          | ok p4 =>
            obtain ⟨s4, c4'⟩ := p4
            rw [h4] at i4
            simp only [stFin] at i4
            have i5 := genO_flat c5 s4 i4
            cases h5 : genO s4 c5 with
            | error e =>
              rw [h5] at i5
              simpa [genS, bindR, h1, h2, h3, h4, h5, stFin] using i5
            | ok p5 =>
              obtain ⟨s5, c5'⟩ := p5
              rw [h5] at i5
              simp only [stFin] at i5
              have i6 := genA_flat c6 s5 i5
              cases h6 : genA s5 c6 with
              | error e =>
                rw [h6] at i6
                simpa [genS, bindR, h1, h2, h3, h4, h5, h6, stFin] using i6
              | ok p6 =>
                obtain ⟨s6, c6'⟩ := p6
                rw [h6] at i6
                simp only [stFin] at i6
                simp only [genS, bindR, h1, h2, h3, h4, h5, h6]
                rw [stFin_liftHook]
                exact exitS_flat _ _ i6
  | .BaseClasses c1 => by
    intro st h0
    have i1 := genL_flat c1 st h0
    cases h1 : genL st c1 with
    | error e =>
      rw [h1] at i1
      simpa [genS, bindR, h1, stFin] using i1
    | ok p1 =>
      obtain ⟨s1, c1'⟩ := p1
      rw [h1] at i1
      simp only [stFin] at i1
      simp only [genS, bindR, h1]
      rw [stFin_liftHook]
      exact exitS_flat _ _ i1
  | .ArchBlock c1 => by
    intro st h0
    have i1 := genL_flat c1 st h0
    cases h1 : genL st c1 with
    | error e =>
      rw [h1] at i1
      simpa [genS, bindR, h1, stFin] using i1
    | ok p1 =>
      obtain ⟨s1, c1'⟩ := p1
      rw [h1] at i1
      simp only [stFin] at i1
      simp only [genS, bindR, h1]
      rw [stFin_liftHook]
      exact exitS_flat _ _ i1
  | .ArchHas c1 c2 c3 h_id => by
    intro st h0
    have i1 := genA_flat c1 st h0
    cases h1 : genA st c1 with
    | error e =>
      rw [h1] at i1
      simpa [genS, bindR, h1, stFin] using i1
    | ok p1 =>
      obtain ⟨s1, c1'⟩ := p1
      rw [h1] at i1
      simp only [stFin] at i1
      have i2 := genO_flat c2 s1 i1
      cases h2 : genO s1 c2 with
      | error e =>
        rw [h2] at i2
        simpa [genS, bindR, h1, h2, stFin] using i2
      | ok p2 =>
        obtain ⟨s2, c2'⟩ := p2
        rw [h2] at i2
        simp only [stFin] at i2
        have i3 := genA_flat c3 s2 i2
        cases h3 : genA s2 c3 with
        | error e =>
          rw [h3] at i3
          simpa [genS, bindR, h1, h2, h3, stFin] using i3
        | ok p3 =>
          obtain ⟨s3, c3'⟩ := p3
          rw [h3] at i3
          simp only [stFin] at i3
          simp only [genS, bindR, h1, h2, h3]
          rw [stFin_liftHook]
          exact exitS_flat _ _ i3
  | .HasVarList c1 => by
    intro st h0
    have i1 := genL_flat c1 st h0
    cases h1 : genL st c1 with
    | error e =>
      rw [h1] at i1
      simpa [genS, bindR, h1, stFin] using i1
    | ok p1 =>
      obtain ⟨s1, c1'⟩ := p1
      rw [h1] at i1
      simp only [stFin] at i1
      simp only [genS, bindR, h1]
      rw [stFin_liftHook]
      exact exitS_flat _ _ i1
  | .HasVar c1 c2 c3 => by
    intro st h0
    have i1 := genA_flat c1 st h0
    cases h1 : genA st c1 with
    | error e =>
      rw [h1] at i1
      simpa [genS, bindR, h1, stFin] using i1
    | ok p1 =>
      obtain ⟨s1, c1'⟩ := p1
      rw [h1] at i1
      simp only [stFin] at i1
      have i2 := genA_flat c2 s1 i1
      cases h2 : genA s1 c2 with
      | error e =>
        rw [h2] at i2
        simpa [genS, bindR, h1, h2, stFin] using i2
      | ok p2 =>
        obtain ⟨s2, c2'⟩ := p2
        rw [h2] at i2
        simp only [stFin] at i2
        have i3 := genO_flat c3 s2 i2
        cases h3 : genO s2 c3 with
        | error e =>
          rw [h3] at i3
          simpa [genS, bindR, h1, h2, h3, stFin] using i3
        | ok p3 =>
          obtain ⟨s3, c3'⟩ := p3
          rw [h3] at i3
          simp only [stFin] at i3
          simp only [genS, bindR, h1, h2, h3]
          rw [stFin_liftHook]
          exact exitS_flat _ _ i3
  | .TypeSpec c1 c2 c3 => by
    intro st h0
    have i1 := genA_flat c1 st h0
    cases h1 : genA st c1 with
    | error e =>
      rw [h1] at i1
      simpa [genS, bindR, h1, stFin] using i1
    | ok p1 =>
      obtain ⟨s1, c1'⟩ := p1
      rw [h1] at i1
      simp only [stFin] at i1
      have i2 := genO_flat c2 s1 i1
      cases h2 : genO s1 c2 with
      | error e =>
        rw [h2] at i2
        simpa [genS, bindR, h1, h2, stFin] using i2
      | ok p2 =>
        obtain ⟨s2, c2'⟩ := p2
        rw [h2] at i2
        simp only [stFin] at i2
        have i3 := genO_flat c3 s2 i2
        cases h3 : genO s2 c3 with
        | error e =>
          rw [h3] at i3
          simpa [genS, bindR, h1, h2, h3, stFin] using i3
        | ok p3 =>
          obtain ⟨s3, c3'⟩ := p3
          rw [h3] at i3
          simp only [stFin] at i3
          simp only [genS, bindR, h1, h2, h3]
          rw [stFin_liftHook]
          exact exitS_flat _ _ i3
  | .CodeBlock c1 => by
    intro st h0
    have i1 := genL_flat c1 st h0
    cases h1 : genL st c1 with
    | error e =>
      rw [h1] at i1
      simpa [genS, bindR, h1, stFin] using i1
    | ok p1 =>
      obtain ⟨s1, c1'⟩ := p1
      rw [h1] at i1
      simp only [stFin] at i1
      simp only [genS, bindR, h1]
      rw [stFin_liftHook]
      exact exitS_flat _ _ i1
  | .IfStmt c1 c2 c3 c4 => by
    intro st h0
    have i1 := genA_flat c1 st h0
    cases h1 : genA st c1 with
    | error e =>
      rw [h1] at i1
      simpa [genS, bindR, h1, stFin] using i1
    | ok p1 =>
      obtain ⟨s1, c1'⟩ := p1
      rw [h1] at i1
      simp only [stFin] at i1
      have i2 := genA_flat c2 s1 i1
      cases h2 : genA s1 c2 with
      | error e =>
        rw [h2] at i2
        simpa [genS, bindR, h1, h2, stFin] using i2
      | ok p2 =>
        obtain ⟨s2, c2'⟩ := p2
        rw [h2] at i2
        simp only [stFin] at i2
        have i3 := genO_flat c3 s2 i2
        cases h3 : genO s2 c3 with
        | error e =>
          rw [h3] at i3
          simpa [genS, bindR, h1, h2, h3, stFin] using i3
        | ok p3 =>
          obtain ⟨s3, c3'⟩ := p3
          rw [h3] at i3
          simp only [stFin] at i3
          have i4 := genO_flat c4 s3 i3
          cases h4 : genO s3 c4 with
          | error e =>
            rw [h4] at i4
            simpa [genS, bindR, h1, h2, h3, h4, stFin] using i4
          | ok p4 =>
            obtain ⟨s4, c4'⟩ := p4
            rw [h4] at i4
            simp only [stFin] at i4
            simp only [genS, bindR, h1, h2, h3, h4]
            rw [stFin_liftHook]
            exact exitS_flat _ _ i4
  | .CtrlStmt c1 => by
    intro st h0
    have i1 := genA_flat c1 st h0
    cases h1 : genA st c1 with
    | error e =>
      rw [h1] at i1
      simpa [genS, bindR, h1, stFin] using i1
    | ok p1 =>
      obtain ⟨s1, c1'⟩ := p1
      rw [h1] at i1
      simp only [stFin] at i1
      simp only [genS, bindR, h1]
      rw [stFin_liftHook]
      exact exitS_flat _ _ i1
  | .Assignment is_static c1 c2 => by
    intro st h0
    have i1 := genA_flat c1 st h0
    cases h1 : genA st c1 with
    | error e =>
      rw [h1] at i1
      simpa [genS, bindR, h1, stFin] using i1
    | ok p1 =>
      obtain ⟨s1, c1'⟩ := p1
      rw [h1] at i1
      simp only [stFin] at i1
      have i2 := genA_flat c2 s1 i1
      cases h2 : genA s1 c2 with
      | error e =>
        rw [h2] at i2
        simpa [genS, bindR, h1, h2, stFin] using i2
      | ok p2 =>
        obtain ⟨s2, c2'⟩ := p2
        rw [h2] at i2
        simp only [stFin] at i2
        simp only [genS, bindR, h1, h2]
        rw [stFin_liftHook]
        exact exitS_flat _ _ i2
  | .BinaryExpr c1 c2 c3 => by
    intro st h0
    have i1 := genA_flat c1 st h0
    cases h1 : genA st c1 with
    | error e =>
      rw [h1] at i1
      simpa [genS, bindR, h1, stFin] using i1
    | ok p1 =>
      obtain ⟨s1, c1'⟩ := p1
      rw [h1] at i1
      simp only [stFin] at i1
      have i2 := genA_flat c2 s1 i1
      cases h2 : genA s1 c2 with
      | error e =>
        rw [h2] at i2
        simpa [genS, bindR, h1, h2, stFin] using i2
      | ok p2 =>
        obtain ⟨s2, c2'⟩ := p2
        rw [h2] at i2
        simp only [stFin] at i2
        have i3 := genA_flat c3 s2 i2
        cases h3 : genA s2 c3 with
        | error e =>
          rw [h3] at i3
          simpa [genS, bindR, h1, h2, h3, stFin] using i3
        | ok p3 =>
          obtain ⟨s3, c3'⟩ := p3
          rw [h3] at i3
          simp only [stFin] at i3
          simp only [genS, bindR, h1, h2, h3]
          rw [stFin_liftHook]
          exact exitS_flat _ _ i3
  | .UnaryExpr c1 c2 => by
    intro st h0
    have i1 := genA_flat c1 st h0
    cases h1 : genA st c1 with
    | error e =>
      rw [h1] at i1
      simpa [genS, bindR, h1, stFin] using i1
    | ok p1 =>
      obtain ⟨s1, c1'⟩ := p1
      rw [h1] at i1
      simp only [stFin] at i1
      have i2 := genA_flat c2 s1 i1
      cases h2 : genA s1 c2 with
      | error e =>
        rw [h2] at i2
        simpa [genS, bindR, h1, h2, stFin] using i2
      | ok p2 =>
        obtain ⟨s2, c2'⟩ := p2
        rw [h2] at i2
        simp only [stFin] at i2
        simp only [genS, bindR, h1, h2]
        rw [stFin_liftHook]
        exact exitS_flat _ _ i2
  | .IfElseExpr c1 c2 c3 => by
    intro st h0
    have i1 := genA_flat c1 st h0
    cases h1 : genA st c1 with
    | error e =>
      rw [h1] at i1
      simpa [genS, bindR, h1, stFin] using i1
    | ok p1 =>
      obtain ⟨s1, c1'⟩ := p1
      rw [h1] at i1
      simp only [stFin] at i1
      have i2 := genA_flat c2 s1 i1
      cases h2 : genA s1 c2 with
      | error e =>
        rw [h2] at i2
        simpa [genS, bindR, h1, h2, stFin] using i2
      | ok p2 =>
        obtain ⟨s2, c2'⟩ := p2
        rw [h2] at i2
        simp only [stFin] at i2
        have i3 := genA_flat c3 s2 i2
        cases h3 : genA s2 c3 with
        | error e =>
          rw [h3] at i3
          simpa [genS, bindR, h1, h2, h3, stFin] using i3
        | ok p3 =>
          obtain ⟨s3, c3'⟩ := p3
          rw [h3] at i3
          simp only [stFin] at i3
          simp only [genS, bindR, h1, h2, h3]
          rw [stFin_liftHook]
          exact exitS_flat _ _ i3
  | .FuncCall c1 c2 => by
    intro st h0
    have i1 := genA_flat c1 st h0
    cases h1 : genA st c1 with
    | error e =>
      rw [h1] at i1
      simpa [genS, bindR, h1, stFin] using i1
    | ok p1 =>
      obtain ⟨s1, c1'⟩ := p1
      rw [h1] at i1
      simp only [stFin] at i1
      have i2 := genO_flat c2 s1 i1
      cases h2 : genO s1 c2 with
      | error e =>
        rw [h2] at i2
        simpa [genS, bindR, h1, h2, stFin] using i2
      | ok p2 =>
        obtain ⟨s2, c2'⟩ := p2
        rw [h2] at i2
        simp only [stFin] at i2
        simp only [genS, bindR, h1, h2]
        rw [stFin_liftHook]
        exact exitS_flat _ _ i2
  | .AtomTrailer c1 c2 null_ok => by
    intro st h0
    have i1 := genA_flat c1 st h0
    cases h1 : genA st c1 with
    | error e =>
      rw [h1] at i1
      simpa [genS, bindR, h1, stFin] using i1
    | ok p1 =>
      obtain ⟨s1, c1'⟩ := p1
      rw [h1] at i1
      simp only [stFin] at i1
      have i2 := genA_flat c2 s1 i1
      cases h2 : genA s1 c2 with
      | error e =>
        rw [h2] at i2
        simpa [genS, bindR, h1, h2, stFin] using i2
      | ok p2 =>
        obtain ⟨s2, c2'⟩ := p2
        rw [h2] at i2
        simp only [stFin] at i2
        simp only [genS, bindR, h1, h2]
        rw [stFin_liftHook]
        exact exitS_flat _ _ i2
  | .ListVal c1 => by
    intro st h0
    have i1 := genL_flat c1 st h0
    cases h1 : genL st c1 with
    | error e =>
      rw [h1] at i1
      simpa [genS, bindR, h1, stFin] using i1
    | ok p1 =>
      obtain ⟨s1, c1'⟩ := p1
      rw [h1] at i1
      simp only [stFin] at i1
      simp only [genS, bindR, h1]
      rw [stFin_liftHook]
      exact exitS_flat _ _ i1
  | .ExprList c1 => by
    intro st h0
    have i1 := genL_flat c1 st h0
    cases h1 : genL st c1 with
    | error e =>
      rw [h1] at i1
      simpa [genS, bindR, h1, stFin] using i1
    | ok p1 =>
      obtain ⟨s1, c1'⟩ := p1
      rw [h1] at i1
      simp only [stFin] at i1
      simp only [genS, bindR, h1]
      rw [stFin_liftHook]
      exact exitS_flat _ _ i1
  | .DictVal c1 => by
    intro st h0
    have i1 := genL_flat c1 st h0
    cases h1 : genL st c1 with
    | error e =>
      rw [h1] at i1
      simpa [genS, bindR, h1, stFin] using i1
    | ok p1 =>
      obtain ⟨s1, c1'⟩ := p1
      rw [h1] at i1
      simp only [stFin] at i1
      simp only [genS, bindR, h1]
      rw [stFin_liftHook]
      exact exitS_flat _ _ i1
  | .KVPair c1 c2 => by
    intro st h0
    have i1 := genA_flat c1 st h0
    cases h1 : genA st c1 with
    | error e =>
      rw [h1] at i1
      simpa [genS, bindR, h1, stFin] using i1
    | ok p1 =>
      obtain ⟨s1, c1'⟩ := p1
      rw [h1] at i1
      simp only [stFin] at i1
      have i2 := genA_flat c2 s1 i1
      cases h2 : genA s1 c2 with
      | error e =>
        rw [h2] at i2
        simpa [genS, bindR, h1, h2, stFin] using i2
      | ok p2 =>
        obtain ⟨s2, c2'⟩ := p2
        rw [h2] at i2
        simp only [stFin] at i2
        simp only [genS, bindR, h1, h2]
        rw [stFin_liftHook]
        exact exitS_flat _ _ i2
  | .Comprehension c1 c2 c3 c4 c5 => by
    intro st h0
    have i1 := genO_flat c1 st h0
    cases h1 : genO st c1 with
    | error e =>
      rw [h1] at i1
      simpa [genS, bindR, h1, stFin] using i1
    | ok p1 =>
      obtain ⟨s1, c1'⟩ := p1
      rw [h1] at i1
      simp only [stFin] at i1
      have i2 := genA_flat c2 s1 i1
      cases h2 : genA s1 c2 with
      | error e =>
        rw [h2] at i2
        simpa [genS, bindR, h1, h2, stFin] using i2
      | ok p2 =>
        obtain ⟨s2, c2'⟩ := p2
        rw [h2] at i2
        simp only [stFin] at i2
        have i3 := genA_flat c3 s2 i2
        cases h3 : genA s2 c3 with
        | error e =>
          rw [h3] at i3
          simpa [genS, bindR, h1, h2, h3, stFin] using i3
        | ok p3 =>
          obtain ⟨s3, c3'⟩ := p3
          rw [h3] at i3
          simp only [stFin] at i3
          have i4 := genA_flat c4 s3 i3
          cases h4 : genA s3 c4 with
          | error e =>
            rw [h4] at i4
            simpa [genS, bindR, h1, h2, h3, h4, stFin] using i4
          | ok p4 =>
            obtain ⟨s4, c4'⟩ := p4
            rw [h4] at i4
            simp only [stFin] at i4
            have i5 := genO_flat c5 s4 i4
            cases h5 : genO s4 c5 with
            | error e =>
              rw [h5] at i5
              simpa [genS, bindR, h1, h2, h3, h4, h5, stFin] using i5
            | ok p5 =>
              obtain ⟨s5, c5'⟩ := p5
              rw [h5] at i5
              simp only [stFin] at i5
              simp only [genS, bindR, h1, h2, h3, h4, h5]
              rw [stFin_liftHook]
              exact exitS_flat _ _ i5
  | .IndexSlice c1 c2 => by
    intro st h0
    have i1 := genA_flat c1 st h0
    cases h1 : genA st c1 with
    | error e =>
      rw [h1] at i1
      simpa [genS, bindR, h1, stFin] using i1
    | ok p1 =>
      obtain ⟨s1, c1'⟩ := p1
      rw [h1] at i1
      simp only [stFin] at i1
      have i2 := genO_flat c2 s1 i1
      cases h2 : genO s1 c2 with
      | error e =>
        rw [h2] at i2
        simpa [genS, bindR, h1, h2, stFin] using i2
      | ok p2 =>
        obtain ⟨s2, c2'⟩ := p2
        rw [h2] at i2
        simp only [stFin] at i2
        simp only [genS, bindR, h1, h2]
        rw [stFin_liftHook]
        exact exitS_flat _ _ i2
  | .ParamList c1 c2 => by
    intro st h0
    have i1 := genO_flat c1 st h0
    cases h1 : genO st c1 with
    | error e =>
      rw [h1] at i1
      simpa [genS, bindR, h1, stFin] using i1
    | ok p1 =>
      obtain ⟨s1, c1'⟩ := p1
      rw [h1] at i1
      simp only [stFin] at i1
      have i2 := genO_flat c2 s1 i1
      cases h2 : genO s1 c2 with
      | error e =>
        rw [h2] at i2
        simpa [genS, bindR, h1, h2, stFin] using i2
      | ok p2 =>
        obtain ⟨s2, c2'⟩ := p2
        rw [h2] at i2
        simp only [stFin] at i2
        simp only [genS, bindR, h1, h2]
        rw [stFin_liftHook]
        exact exitS_flat _ _ i2
  | .AssignmentList c1 => by
    intro st h0
    have i1 := genL_flat c1 st h0
    cases h1 : genL st c1 with
    | error e =>
      rw [h1] at i1
      simpa [genS, bindR, h1, stFin] using i1
    | ok p1 =>
      obtain ⟨s1, c1'⟩ := p1
      rw [h1] at i1
      simp only [stFin] at i1
      simp only [genS, bindR, h1]
      rw [stFin_liftHook]
      exact exitS_flat _ _ i1
  | .ArchRef tag c1 => by
    intro st h0
    have i1 := genA_flat c1 st h0
    cases h1 : genA st c1 with
    | error e =>
      rw [h1] at i1
      simpa [genS, bindR, h1, stFin] using i1
    | ok p1 =>
      obtain ⟨s1, c1'⟩ := p1
      rw [h1] at i1
      simp only [stFin] at i1
      simp only [genS, bindR, h1]
      rw [stFin_liftHook]
      exact exitS_flat _ _ i1
  | .HereRef c1 => by
    intro st h0
    have i1 := genO_flat c1 st h0
    cases h1 : genO st c1 with
    | error e =>
      rw [h1] at i1
      simpa [genS, bindR, h1, stFin] using i1
    | ok p1 =>
      obtain ⟨s1, c1'⟩ := p1
      rw [h1] at i1
      simp only [stFin] at i1
      simp only [genS, bindR, h1]
      rw [stFin_liftHook]
      exact exitS_flat _ _ i1
  | .VisitorRef c1 => by
    intro st h0
    have i1 := genO_flat c1 st h0
    cases h1 : genO st c1 with
    | error e =>
      rw [h1] at i1
      simpa [genS, bindR, h1, stFin] using i1
    | ok p1 =>
      obtain ⟨s1, c1'⟩ := p1
      rw [h1] at i1
      simp only [stFin] at i1
      simp only [genS, bindR, h1]
      rw [stFin_liftHook]
      exact exitS_flat _ _ i1

/-- `Flat` preservation for `genL` (see `genA_flat`). -/
theorem genL_flat (l : AstList) : ∀ st, Flat st → Flat (stFin (genL st l)) :=
  match l with
  | .nil => by
    intro st h0
    simpa [genL, stFin] using h0
  | .cons hd tl => by
    intro st h0
    have i1 := genA_flat hd st h0
    cases h1 : genA st hd with
    | error e =>
      rw [h1] at i1
      simpa [genL, bindR, h1, stFin] using i1
    | ok p1 =>
      obtain ⟨s1, hd'⟩ := p1
      rw [h1] at i1
      simp only [stFin] at i1
      have i2 := genL_flat tl s1 i1
      cases h2 : genL s1 tl with
      | error e =>
        rw [h2] at i2
        simpa [genL, bindR, h1, h2, stFin] using i2
      | ok p2 =>
        obtain ⟨s2, tl'⟩ := p2
        rw [h2] at i2
        simp only [stFin] at i2
        simpa [genL, bindR, h1, h2, stFin] using i2

/-- `Flat` preservation for `genO` (see `genA_flat`). -/
theorem genO_flat (o : AstOpt) : ∀ st, Flat st → Flat (stFin (genO st o)) :=
  match o with
  | .none => by
    intro st h0
    simpa [genO, stFin] using h0
  | .some a => by
    intro st h0
    have i1 := genA_flat a st h0
    cases h1 : genA st a with
    | error e =>
      rw [h1] at i1
      simpa [genO, bindR, h1, stFin] using i1
    | ok p1 =>
      obtain ⟨s1, a'⟩ := p1
      rw [h1] at i1
      simp only [stFin] at i1
      simpa [genO, bindR, h1, stFin] using i1

end

mutual

/-- On a well-typed tree with no `Parse` node the pass returns normally:
no exception crosses the traversal boundary (only `exit_parse`
raises). -/
theorem genA_ok (t : Ast) :
    ∀ st, WTa t = true → NPa t = true → ∃ st' t', genA st t = .ok (st', t') :=
  match t with
  | .mk _ sh => by
    intro st hw hn
    obtain ⟨st', t', h⟩ := genS_ok sh st (by simpa [WTa] using hw) (by simpa [NPa] using hn)
    exact ⟨st', t', by simpa [genA] using h⟩

/-- Totality of `genS` off `Parse` nodes (see `genA_ok`). -/
theorem genS_ok (sh : Shape) :
    ∀ st, WTs sh = true → NPs sh = true → ∃ st' t', genS st sh = .ok (st', t') :=
  match sh with
  | .Token name value => by
    intro st hw hn
    obtain ⟨sE, m, hex⟩ := exitS_ok st (.Token name value) (fun _ h => Shape.noConfusion h)
    exact ⟨sE, .mk m (.Token name value), by simp only [genS, liftHook, hex]⟩
  | .Parse name => by
    intro st hw hn
    simp [NPs] at hn
  | .Module name c1 c2 => by
    intro st hw hn
    simp only [WTs, Bool.and_eq_true] at hw
    obtain ⟨-, w1, w2⟩ := hw
    simp only [NPs, Bool.and_eq_true] at hn
    obtain ⟨n1, n2⟩ := hn
    obtain ⟨s1, c1', h1⟩ := genA_ok c1 st w1 n1
    obtain ⟨s2, c2', h2⟩ := genA_ok c2 s1 w2 n2
    obtain ⟨sE, m, hex⟩ := exitS_ok s2 (.Module name c1' c2') (fun _ h => Shape.noConfusion h)
    exact ⟨sE, .mk m (.Module name c1' c2'), by simp only [genS, bindR, h1, h2, liftHook, hex]⟩
  | .Elements c1 => by
    intro st hw hn
    simp only [WTs] at hw
    simp only [NPs] at hn
    obtain ⟨s1, c1', h1⟩ := genL_ok c1 st hw hn
    obtain ⟨sE, m, hex⟩ := exitS_ok s1 (.Elements c1') (fun _ h => Shape.noConfusion h)
    exact ⟨sE, .mk m (.Elements c1'), by simp only [genS, bindR, h1, liftHook, hex]⟩
  | .DocString c1 => by
    intro st hw hn
    simp only [WTs] at hw
    simp only [NPs] at hn
    obtain ⟨s1, c1', h1⟩ := genO_ok c1 st hw hn
    obtain ⟨sE, m, hex⟩ := exitS_ok s1 (.DocString c1') (fun _ h => Shape.noConfusion h)
    exact ⟨sE, .mk m (.DocString c1'), by simp only [genS, bindR, h1, liftHook, hex]⟩
  | .ModuleCode c1 c2 => by
    intro st hw hn
    simp only [WTs, Bool.and_eq_true] at hw
    obtain ⟨w1, w2⟩ := hw
    simp only [NPs, Bool.and_eq_true] at hn
    obtain ⟨n1, n2⟩ := hn
    obtain ⟨s1, c1', h1⟩ := genA_ok c1 st w1 n1
    obtain ⟨s2, c2', h2⟩ := genA_ok c2 s1 w2 n2
    obtain ⟨sE, m, hex⟩ := exitS_ok s2 (.ModuleCode c1' c2') (fun _ h => Shape.noConfusion h)
    exact ⟨sE, .mk m (.ModuleCode c1' c2'), by simp only [genS, bindR, h1, h2, liftHook, hex]⟩
  | .Import line c1 c2 c3 c4 is_absorb => by
    intro st hw hn
    simp only [WTs, Bool.and_eq_true] at hw
    obtain ⟨-, w1, w2, w3, w4⟩ := hw
    simp only [NPs, Bool.and_eq_true] at hn
    obtain ⟨n1, n2, n3, n4⟩ := hn
    obtain ⟨s1, c1', h1⟩ := genA_ok c1 st w1 n1
    obtain ⟨s2, c2', h2⟩ := genA_ok c2 s1 w2 n2
    obtain ⟨s3, c3', h3⟩ := genO_ok c3 s2 w3 n3
    obtain ⟨s4, c4', h4⟩ := genO_ok c4 s3 w4 n4
    obtain ⟨sE, m, hex⟩ := exitS_ok s4 (.Import line c1' c2' c3' c4' is_absorb) (fun _ h => Shape.noConfusion h)
    exact ⟨sE, .mk m (.Import line c1' c2' c3' c4' is_absorb), by simp only [genS, bindR, h1, h2, h3, h4, liftHook, hex]⟩
  | .ModulePath c1 => by
    intro st hw hn
    simp only [WTs, Bool.and_eq_true] at hw
    obtain ⟨-, w1⟩ := hw
    simp only [NPs] at hn
    obtain ⟨s1, c1', h1⟩ := genL_ok c1 st w1 hn
    obtain ⟨sE, m, hex⟩ := exitS_ok s1 (.ModulePath c1') (fun _ h => Shape.noConfusion h)
    exact ⟨sE, .mk m (.ModulePath c1'), by simp only [genS, bindR, h1, liftHook, hex]⟩
  | .ModuleItems c1 => by
    intro st hw hn
    simp only [WTs] at hw
    simp only [NPs] at hn
    obtain ⟨s1, c1', h1⟩ := genL_ok c1 st hw hn
    obtain ⟨sE, m, hex⟩ := exitS_ok s1 (.ModuleItems c1') (fun _ h => Shape.noConfusion h)
    exact ⟨sE, .mk m (.ModuleItems c1'), by simp only [genS, bindR, h1, liftHook, hex]⟩
  | .ModuleItem c1 c2 => by
    intro st hw hn
    simp only [WTs, Bool.and_eq_true] at hw
    obtain ⟨-, w1, w2⟩ := hw
    simp only [NPs, Bool.and_eq_true] at hn
    obtain ⟨n1, n2⟩ := hn
    obtain ⟨s1, c1', h1⟩ := genA_ok c1 st w1 n1
    obtain ⟨s2, c2', h2⟩ := genO_ok c2 s1 w2 n2
    obtain ⟨sE, m, hex⟩ := exitS_ok s2 (.ModuleItem c1' c2') (fun _ h => Shape.noConfusion h)
    exact ⟨sE, .mk m (.ModuleItem c1' c2'), by simp only [genS, bindR, h1, h2, liftHook, hex]⟩
  | .Architype line c1 c2 c3 c4 c5 c6 => by
    intro st hw hn
    simp only [WTs, Bool.and_eq_true] at hw
    obtain ⟨w1, w2, w3, w4, w5, w6⟩ := hw
    simp only [NPs, Bool.and_eq_true] at hn
    obtain ⟨n1, n2, n3, n4, n5, n6⟩ := hn
    obtain ⟨s1, c1', h1⟩ := genA_ok c1 st w1 n1
    obtain ⟨s2, c2', h2⟩ := genA_ok c2 s1 w2 n2
    obtain ⟨s3, c3', h3⟩ := genA_ok c3 s2 w3 n3
    obtain ⟨s4, c4', h4⟩ := genO_ok c4 s3 w4 n4
    obtain ⟨s5, c5', h5⟩ := genO_ok c5 s4 w5 n5
    obtain ⟨s6, c6', h6⟩ := genA_ok c6 s5 w6 n6
    obtain ⟨sE, m, hex⟩ := exitS_ok s6 (.Architype line c1' c2' c3' c4' c5' c6') (fun _ h => Shape.noConfusion h)
    exact ⟨sE, .mk m (.Architype line c1' c2' c3' c4' c5' c6'), by simp only [genS, bindR, h1, h2, h3, h4, h5, h6, liftHook, hex]⟩
  | .BaseClasses c1 => by
    intro st hw hn
    simp only [WTs, Bool.and_eq_true] at hw
    obtain ⟨-, w1⟩ := hw
    simp only [NPs] at hn
    obtain ⟨s1, c1', h1⟩ := genL_ok c1 st w1 hn
    obtain ⟨sE, m, hex⟩ := exitS_ok s1 (.BaseClasses c1') (fun _ h => Shape.noConfusion h)
    exact ⟨sE, .mk m (.BaseClasses c1'), by simp only [genS, bindR, h1, liftHook, hex]⟩
  | .ArchBlock c1 => by
    intro st hw hn
    simp only [WTs] at hw
    simp only [NPs] at hn
    obtain ⟨s1, c1', h1⟩ := genL_ok c1 st hw hn
    obtain ⟨sE, m, hex⟩ := exitS_ok s1 (.ArchBlock c1') (fun _ h => Shape.noConfusion h)
    exact ⟨sE, .mk m (.ArchBlock c1'), by simp only [genS, bindR, h1, liftHook, hex]⟩
  | .ArchHas c1 c2 c3 h_id => by
    intro st hw hn
    simp only [WTs, Bool.and_eq_true] at hw
    obtain ⟨w1, w2, w3⟩ := hw
    simp only [NPs, Bool.and_eq_true] at hn
    obtain ⟨n1, n2, n3⟩ := hn
    obtain ⟨s1, c1', h1⟩ := genA_ok c1 st w1 n1
    obtain ⟨s2, c2', h2⟩ := genO_ok c2 s1 w2 n2
    obtain ⟨s3, c3', h3⟩ := genA_ok c3 s2 w3 n3
    obtain ⟨sE, m, hex⟩ := exitS_ok s3 (.ArchHas c1' c2' c3' h_id) (fun _ h => Shape.noConfusion h)
    exact ⟨sE, .mk m (.ArchHas c1' c2' c3' h_id), by simp only [genS, bindR, h1, h2, h3, liftHook, hex]⟩
  | .HasVarList c1 => by
    intro st hw hn
    simp only [WTs] at hw
    simp only [NPs] at hn
    obtain ⟨s1, c1', h1⟩ := genL_ok c1 st hw hn
    obtain ⟨sE, m, hex⟩ := exitS_ok s1 (.HasVarList c1') (fun _ h => Shape.noConfusion h)
    exact ⟨sE, .mk m (.HasVarList c1'), by simp only [genS, bindR, h1, liftHook, hex]⟩
  | .HasVar c1 c2 c3 => by
    intro st hw hn
    simp only [WTs, Bool.and_eq_true] at hw
    obtain ⟨-, w1, w2, w3⟩ := hw
    simp only [NPs, Bool.and_eq_true] at hn
    obtain ⟨n1, n2, n3⟩ := hn
    obtain ⟨s1, c1', h1⟩ := genA_ok c1 st w1 n1
    obtain ⟨s2, c2', h2⟩ := genA_ok c2 s1 w2 n2
    obtain ⟨s3, c3', h3⟩ := genO_ok c3 s2 w3 n3
    obtain ⟨sE, m, hex⟩ := exitS_ok s3 (.HasVar c1' c2' c3') (fun _ h => Shape.noConfusion h)
    exact ⟨sE, .mk m (.HasVar c1' c2' c3'), by simp only [genS, bindR, h1, h2, h3, liftHook, hex]⟩
  | .TypeSpec c1 c2 c3 => by
    intro st hw hn
    simp only [WTs, Bool.and_eq_true] at hw
    obtain ⟨-, -, w1, w2, w3⟩ := hw
    simp only [NPs, Bool.and_eq_true] at hn
    obtain ⟨n1, n2, n3⟩ := hn
    obtain ⟨s1, c1', h1⟩ := genA_ok c1 st w1 n1
    obtain ⟨s2, c2', h2⟩ := genO_ok c2 s1 w2 n2
    obtain ⟨s3, c3', h3⟩ := genO_ok c3 s2 w3 n3
    obtain ⟨sE, m, hex⟩ := exitS_ok s3 (.TypeSpec c1' c2' c3') (fun _ h => Shape.noConfusion h)
    exact ⟨sE, .mk m (.TypeSpec c1' c2' c3'), by simp only [genS, bindR, h1, h2, h3, liftHook, hex]⟩
  | .CodeBlock c1 => by
    intro st hw hn
    simp only [WTs] at hw
    simp only [NPs] at hn
    obtain ⟨s1, c1', h1⟩ := genL_ok c1 st hw hn
    obtain ⟨sE, m, hex⟩ := exitS_ok s1 (.CodeBlock c1') (fun _ h => Shape.noConfusion h)
    exact ⟨sE, .mk m (.CodeBlock c1'), by simp only [genS, bindR, h1, liftHook, hex]⟩
  | .IfStmt c1 c2 c3 c4 => by
    intro st hw hn
    simp only [WTs, Bool.and_eq_true] at hw
    obtain ⟨w1, w2, w3, w4⟩ := hw
    simp only [NPs, Bool.and_eq_true] at hn
    obtain ⟨n1, n2, n3, n4⟩ := hn
    obtain ⟨s1, c1', h1⟩ := genA_ok c1 st w1 n1
    obtain ⟨s2, c2', h2⟩ := genA_ok c2 s1 w2 n2
    obtain ⟨s3, c3', h3⟩ := genO_ok c3 s2 w3 n3
    obtain ⟨s4, c4', h4⟩ := genO_ok c4 s3 w4 n4
    obtain ⟨sE, m, hex⟩ := exitS_ok s4 (.IfStmt c1' c2' c3' c4') (fun _ h => Shape.noConfusion h)
    exact ⟨sE, .mk m (.IfStmt c1' c2' c3' c4'), by simp only [genS, bindR, h1, h2, h3, h4, liftHook, hex]⟩
  | .CtrlStmt c1 => by
    intro st hw hn
    simp only [WTs, Bool.and_eq_true] at hw
    obtain ⟨-, w1⟩ := hw
    simp only [NPs] at hn
    obtain ⟨s1, c1', h1⟩ := genA_ok c1 st w1 hn
    obtain ⟨sE, m, hex⟩ := exitS_ok s1 (.CtrlStmt c1') (fun _ h => Shape.noConfusion h)
    exact ⟨sE, .mk m (.CtrlStmt c1'), by simp only [genS, bindR, h1, liftHook, hex]⟩
  | .Assignment is_static c1 c2 => by
    intro st hw hn
    simp only [WTs, Bool.and_eq_true] at hw
    obtain ⟨w1, w2⟩ := hw
    simp only [NPs, Bool.and_eq_true] at hn
    obtain ⟨n1, n2⟩ := hn
    obtain ⟨s1, c1', h1⟩ := genA_ok c1 st w1 n1
    obtain ⟨s2, c2', h2⟩ := genA_ok c2 s1 w2 n2
    obtain ⟨sE, m, hex⟩ := exitS_ok s2 (.Assignment is_static c1' c2') (fun _ h => Shape.noConfusion h)
    exact ⟨sE, .mk m (.Assignment is_static c1' c2'), by simp only [genS, bindR, h1, h2, liftHook, hex]⟩
  | .BinaryExpr c1 c2 c3 => by
    intro st hw hn
    simp only [WTs, Bool.and_eq_true] at hw
    obtain ⟨w1, w2, w3⟩ := hw
    simp only [NPs, Bool.and_eq_true] at hn
    obtain ⟨n1, n2, n3⟩ := hn
    obtain ⟨s1, c1', h1⟩ := genA_ok c1 st w1 n1
    obtain ⟨s2, c2', h2⟩ := genA_ok c2 s1 w2 n2
    obtain ⟨s3, c3', h3⟩ := genA_ok c3 s2 w3 n3
    obtain ⟨sE, m, hex⟩ := exitS_ok s3 (.BinaryExpr c1' c2' c3') (fun _ h => Shape.noConfusion h)
    exact ⟨sE, .mk m (.BinaryExpr c1' c2' c3'), by simp only [genS, bindR, h1, h2, h3, liftHook, hex]⟩
  | .UnaryExpr c1 c2 => by
    intro st hw hn
    simp only [WTs, Bool.and_eq_true] at hw
    obtain ⟨w1, w2⟩ := hw
    simp only [NPs, Bool.and_eq_true] at hn
    obtain ⟨n1, n2⟩ := hn
    obtain ⟨s1, c1', h1⟩ := genA_ok c1 st w1 n1
    obtain ⟨s2, c2', h2⟩ := genA_ok c2 s1 w2 n2
    obtain ⟨sE, m, hex⟩ := exitS_ok s2 (.UnaryExpr c1' c2') (fun _ h => Shape.noConfusion h)
    exact ⟨sE, .mk m (.UnaryExpr c1' c2'), by simp only [genS, bindR, h1, h2, liftHook, hex]⟩
  | .IfElseExpr c1 c2 c3 => by
    intro st hw hn
    simp only [WTs, Bool.and_eq_true] at hw
    obtain ⟨w1, w2, w3⟩ := hw
    simp only [NPs, Bool.and_eq_true] at hn
    obtain ⟨n1, n2, n3⟩ := hn
    obtain ⟨s1, c1', h1⟩ := genA_ok c1 st w1 n1
    obtain ⟨s2, c2', h2⟩ := genA_ok c2 s1 w2 n2
    obtain ⟨s3, c3', h3⟩ := genA_ok c3 s2 w3 n3
    obtain ⟨sE, m, hex⟩ := exitS_ok s3 (.IfElseExpr c1' c2' c3') (fun _ h => Shape.noConfusion h)
    exact ⟨sE, .mk m (.IfElseExpr c1' c2' c3'), by simp only [genS, bindR, h1, h2, h3, liftHook, hex]⟩
  | .FuncCall c1 c2 => by
    intro st hw hn
    simp only [WTs, Bool.and_eq_true] at hw
    obtain ⟨w1, w2⟩ := hw
    simp only [NPs, Bool.and_eq_true] at hn
    obtain ⟨n1, n2⟩ := hn
    obtain ⟨s1, c1', h1⟩ := genA_ok c1 st w1 n1
    obtain ⟨s2, c2', h2⟩ := genO_ok c2 s1 w2 n2
    obtain ⟨sE, m, hex⟩ := exitS_ok s2 (.FuncCall c1' c2') (fun _ h => Shape.noConfusion h)
    exact ⟨sE, .mk m (.FuncCall c1' c2'), by simp only [genS, bindR, h1, h2, liftHook, hex]⟩
  | .AtomTrailer c1 c2 null_ok => by
    intro st hw hn
    simp only [WTs, Bool.and_eq_true] at hw
    obtain ⟨w1, w2⟩ := hw
    simp only [NPs, Bool.and_eq_true] at hn
    obtain ⟨n1, n2⟩ := hn
    obtain ⟨s1, c1', h1⟩ := genA_ok c1 st w1 n1
    obtain ⟨s2, c2', h2⟩ := genA_ok c2 s1 w2 n2
    obtain ⟨sE, m, hex⟩ := exitS_ok s2 (.AtomTrailer c1' c2' null_ok) (fun _ h => Shape.noConfusion h)
    exact ⟨sE, .mk m (.AtomTrailer c1' c2' null_ok), by simp only [genS, bindR, h1, h2, liftHook, hex]⟩
  | .ListVal c1 => by
    intro st hw hn
    simp only [WTs] at hw
    simp only [NPs] at hn
    obtain ⟨s1, c1', h1⟩ := genL_ok c1 st hw hn
    obtain ⟨sE, m, hex⟩ := exitS_ok s1 (.ListVal c1') (fun _ h => Shape.noConfusion h)
    exact ⟨sE, .mk m (.ListVal c1'), by simp only [genS, bindR, h1, liftHook, hex]⟩
  | .ExprList c1 => by
    intro st hw hn
    simp only [WTs] at hw
    simp only [NPs] at hn
    obtain ⟨s1, c1', h1⟩ := genL_ok c1 st hw hn
    obtain ⟨sE, m, hex⟩ := exitS_ok s1 (.ExprList c1') (fun _ h => Shape.noConfusion h)
    exact ⟨sE, .mk m (.ExprList c1'), by simp only [genS, bindR, h1, liftHook, hex]⟩
  | .DictVal c1 => by
    intro st hw hn
    simp only [WTs] at hw
    simp only [NPs] at hn
    obtain ⟨s1, c1', h1⟩ := genL_ok c1 st hw hn
    obtain ⟨sE, m, hex⟩ := exitS_ok s1 (.DictVal c1') (fun _ h => Shape.noConfusion h)
    exact ⟨sE, .mk m (.DictVal c1'), by simp only [genS, bindR, h1, liftHook, hex]⟩
  | .KVPair c1 c2 => by
    intro st hw hn
    simp only [WTs, Bool.and_eq_true] at hw
    obtain ⟨w1, w2⟩ := hw
    simp only [NPs, Bool.and_eq_true] at hn
    obtain ⟨n1, n2⟩ := hn
    obtain ⟨s1, c1', h1⟩ := genA_ok c1 st w1 n1
    obtain ⟨s2, c2', h2⟩ := genA_ok c2 s1 w2 n2
    obtain ⟨sE, m, hex⟩ := exitS_ok s2 (.KVPair c1' c2') (fun _ h => Shape.noConfusion h)
    exact ⟨sE, .mk m (.KVPair c1' c2'), by simp only [genS, bindR, h1, h2, liftHook, hex]⟩
  | .Comprehension c1 c2 c3 c4 c5 => by
    intro st hw hn
    simp only [WTs, Bool.and_eq_true] at hw
    obtain ⟨w1, w2, w3, w4, w5⟩ := hw
    simp only [NPs, Bool.and_eq_true] at hn
    obtain ⟨n1, n2, n3, n4, n5⟩ := hn
    obtain ⟨s1, c1', h1⟩ := genO_ok c1 st w1 n1
    obtain ⟨s2, c2', h2⟩ := genA_ok c2 s1 w2 n2
    obtain ⟨s3, c3', h3⟩ := genA_ok c3 s2 w3 n3
    obtain ⟨s4, c4', h4⟩ := genA_ok c4 s3 w4 n4
    obtain ⟨s5, c5', h5⟩ := genO_ok c5 s4 w5 n5
    obtain ⟨sE, m, hex⟩ := exitS_ok s5 (.Comprehension c1' c2' c3' c4' c5') (fun _ h => Shape.noConfusion h)
    exact ⟨sE, .mk m (.Comprehension c1' c2' c3' c4' c5'), by simp only [genS, bindR, h1, h2, h3, h4, h5, liftHook, hex]⟩
  | .IndexSlice c1 c2 => by
    intro st hw hn
    simp only [WTs, Bool.and_eq_true] at hw
    obtain ⟨w1, w2⟩ := hw
    simp only [NPs, Bool.and_eq_true] at hn
    obtain ⟨n1, n2⟩ := hn
    obtain ⟨s1, c1', h1⟩ := genA_ok c1 st w1 n1
    obtain ⟨s2, c2', h2⟩ := genO_ok c2 s1 w2 n2
    obtain ⟨sE, m, hex⟩ := exitS_ok s2 (.IndexSlice c1' c2') (fun _ h => Shape.noConfusion h)
    exact ⟨sE, .mk m (.IndexSlice c1' c2'), by simp only [genS, bindR, h1, h2, liftHook, hex]⟩
  | .ParamList c1 c2 => by
    intro st hw hn
    simp only [WTs, Bool.and_eq_true] at hw
    obtain ⟨w1, w2⟩ := hw
    simp only [NPs, Bool.and_eq_true] at hn
    obtain ⟨n1, n2⟩ := hn
    obtain ⟨s1, c1', h1⟩ := genO_ok c1 st w1 n1
    obtain ⟨s2, c2', h2⟩ := genO_ok c2 s1 w2 n2
    obtain ⟨sE, m, hex⟩ := exitS_ok s2 (.ParamList c1' c2') (fun _ h => Shape.noConfusion h)
    exact ⟨sE, .mk m (.ParamList c1' c2'), by simp only [genS, bindR, h1, h2, liftHook, hex]⟩
  | .AssignmentList c1 => by
    intro st hw hn
    simp only [WTs] at hw
    simp only [NPs] at hn
    obtain ⟨s1, c1', h1⟩ := genL_ok c1 st hw hn
    obtain ⟨sE, m, hex⟩ := exitS_ok s1 (.AssignmentList c1') (fun _ h => Shape.noConfusion h)
    exact ⟨sE, .mk m (.AssignmentList c1'), by simp only [genS, bindR, h1, liftHook, hex]⟩
  | .ArchRef tag c1 => by
    intro st hw hn
    simp only [WTs] at hw
    simp only [NPs] at hn
    obtain ⟨s1, c1', h1⟩ := genA_ok c1 st hw hn
    obtain ⟨sE, m, hex⟩ := exitS_ok s1 (.ArchRef tag c1') (fun _ h => Shape.noConfusion h)
    exact ⟨sE, .mk m (.ArchRef tag c1'), by simp only [genS, bindR, h1, liftHook, hex]⟩
  | .HereRef c1 => by
    intro st hw hn
    simp only [WTs] at hw
    simp only [NPs] at hn
    obtain ⟨s1, c1', h1⟩ := genO_ok c1 st hw hn
    obtain ⟨sE, m, hex⟩ := exitS_ok s1 (.HereRef c1') (fun _ h => Shape.noConfusion h)
    exact ⟨sE, .mk m (.HereRef c1'), by simp only [genS, bindR, h1, liftHook, hex]⟩
  | .VisitorRef c1 => by
    intro st hw hn
    simp only [WTs] at hw
    simp only [NPs] at hn
    obtain ⟨s1, c1', h1⟩ := genO_ok c1 st hw hn
    obtain ⟨sE, m, hex⟩ := exitS_ok s1 (.VisitorRef c1') (fun _ h => Shape.noConfusion h)
    exact ⟨sE, .mk m (.VisitorRef c1'), by simp only [genS, bindR, h1, liftHook, hex]⟩

/-- Totality of `genL` off `Parse` nodes (see `genA_ok`). -/
theorem genL_ok (l : AstList) :
    ∀ st, WTl l = true → NPl l = true → ∃ st' l', genL st l = .ok (st', l') :=
  match l with
  | .nil => by
    intro st _ _
    exact ⟨st, .nil, by simp [genL]⟩
  | .cons hd tl => by
    intro st hw hn
    simp only [WTl, Bool.and_eq_true] at hw
    simp only [NPl, Bool.and_eq_true] at hn
    obtain ⟨s1, hd', h1⟩ := genA_ok hd st hw.1 hn.1
    obtain ⟨s2, tl', h2⟩ := genL_ok tl s1 hw.2 hn.2
    exact ⟨s2, .cons hd' tl', by simp only [genL, bindR, h1, h2]⟩

/-- Totality of `genO` off `Parse` nodes (see `genA_ok`). -/
theorem genO_ok (o : AstOpt) :
    ∀ st, WTo o = true → NPo o = true → ∃ st' o', genO st o = .ok (st', o') :=
  match o with
  | .none => by
    intro st _ _
    exact ⟨st, .none, by simp [genO]⟩
  | .some a => by
    intro st hw hn
    simp only [WTo] at hw
    simp only [NPo] at hn
    obtain ⟨s1, a', h1⟩ := genA_ok a st hw hn
    exact ⟨s1, .some a', by simp only [genO, bindR, h1]⟩

end

mutual

/-- Pure expression trees are invisible to the generator: on a tree made
only of `Token`s and empty-handler expression kinds, the pass changes
nothing in the state (no emission into the sink, no `emit_ln`) and, when
the root is one of the expression kinds, leaves its `py_code` slot equal
to the empty string `enter_node` wrote. -/
theorem genA_ex (t : Ast) :
    ∀ st, EXa t = true →
      ∃ t', genA st t = .ok (st, t') ∧ (isExprShape t.shapeOf = true → t'.metaOf = "") :=
  match t with
  | .mk m sh => by
    intro st he
    obtain ⟨t', h, hm⟩ := genS_ex sh st (by simpa [EXa] using he)
    exact ⟨t', by simpa [genA] using h, by simpa [Ast.shapeOf] using hm⟩

/-- Pure-expression behaviour of `genS` (see `genA_ex`). -/
theorem genS_ex (sh : Shape) :
    ∀ st, EXs sh = true →
      ∃ t', genS st sh = .ok (st, t') ∧ (isExprShape sh = true → t'.metaOf = "") :=
  match sh with
  | .Token name value => by
    intro st _
    refine ⟨.mk (emitRaw "" value) (.Token name value), ?_, ?_⟩
    · simp [genS, liftHook, exitS]
    · intro hh; simp [isExprShape] at hh
  | .Parse name => by
    intro st he
    simp [EXs] at he
  | .Module name c1 c2 => by
    intro st he
    simp [EXs] at he
  | .Elements c1 => by
    intro st he
    simp [EXs] at he
  | .DocString c1 => by
    intro st he
    simp [EXs] at he
  | .ModuleCode c1 c2 => by
    intro st he
    simp [EXs] at he
  | .Import line c1 c2 c3 c4 is_absorb => by
    intro st he
    simp [EXs] at he
  | .ModulePath c1 => by
    intro st he
    simp [EXs] at he
  | .ModuleItems c1 => by
    intro st he
    simp [EXs] at he
  | .ModuleItem c1 c2 => by
    intro st he
    simp [EXs] at he
  | .Architype line c1 c2 c3 c4 c5 c6 => by
    intro st he
    simp [EXs] at he
  | .BaseClasses c1 => by
    intro st he
    simp [EXs] at he
  | .ArchBlock c1 => by
    intro st he
    simp [EXs] at he
  | .ArchHas c1 c2 c3 h_id => by
    intro st he
    simp [EXs] at he
  | .HasVarList c1 => by
    intro st he
    simp [EXs] at he
  | .HasVar c1 c2 c3 => by
    intro st he
    simp [EXs] at he
  | .TypeSpec c1 c2 c3 => by
    intro st he
    simp [EXs] at he
  | .CodeBlock c1 => by
    intro st he
    simp [EXs] at he
  | .IfStmt c1 c2 c3 c4 => by
    intro st he
    simp [EXs] at he
  | .CtrlStmt c1 => by
    intro st he
    simp [EXs] at he
  | .Assignment is_static c1 c2 => by
    intro st he
    simp only [EXs, Bool.and_eq_true] at he
    obtain ⟨e1, e2⟩ := he
    obtain ⟨c1', h1, -⟩ := genA_ex c1 st e1
    obtain ⟨c2', h2, -⟩ := genA_ex c2 st e2
    have hex := exitS_expr st (.Assignment is_static c1' c2') (by simp [isExprShape])
    refine ⟨.mk "" (.Assignment is_static c1' c2'), ?_, fun _ => rfl⟩
    simp only [genS, bindR, h1, h2, liftHook, hex]
  | .BinaryExpr c1 c2 c3 => by
    intro st he
    simp only [EXs, Bool.and_eq_true] at he
    obtain ⟨e1, e2, e3⟩ := he
    obtain ⟨c1', h1, -⟩ := genA_ex c1 st e1
    obtain ⟨c2', h2, -⟩ := genA_ex c2 st e2
    obtain ⟨c3', h3, -⟩ := genA_ex c3 st e3
    have hex := exitS_expr st (.BinaryExpr c1' c2' c3') (by simp [isExprShape])
    refine ⟨.mk "" (.BinaryExpr c1' c2' c3'), ?_, fun _ => rfl⟩
    simp only [genS, bindR, h1, h2, h3, liftHook, hex]
  | .UnaryExpr c1 c2 => by
    intro st he
    simp only [EXs, Bool.and_eq_true] at he
    obtain ⟨e1, e2⟩ := he
    obtain ⟨c1', h1, -⟩ := genA_ex c1 st e1
    obtain ⟨c2', h2, -⟩ := genA_ex c2 st e2
    have hex := exitS_expr st (.UnaryExpr c1' c2') (by simp [isExprShape])
    refine ⟨.mk "" (.UnaryExpr c1' c2'), ?_, fun _ => rfl⟩
    simp only [genS, bindR, h1, h2, liftHook, hex]
  | .IfElseExpr c1 c2 c3 => by
    intro st he
    simp only [EXs, Bool.and_eq_true] at he
    obtain ⟨e1, e2, e3⟩ := he
    obtain ⟨c1', h1, -⟩ := genA_ex c1 st e1
    obtain ⟨c2', h2, -⟩ := genA_ex c2 st e2
    obtain ⟨c3', h3, -⟩ := genA_ex c3 st e3
    have hex := exitS_expr st (.IfElseExpr c1' c2' c3') (by simp [isExprShape])
    refine ⟨.mk "" (.IfElseExpr c1' c2' c3'), ?_, fun _ => rfl⟩
    simp only [genS, bindR, h1, h2, h3, liftHook, hex]
  | .FuncCall c1 c2 => by
    intro st he
    simp only [EXs, Bool.and_eq_true] at he
    obtain ⟨e1, e2⟩ := he
    obtain ⟨c1', h1, -⟩ := genA_ex c1 st e1
    obtain ⟨c2', h2⟩ := genO_ex c2 st e2
    have hex := exitS_expr st (.FuncCall c1' c2') (by simp [isExprShape])
    refine ⟨.mk "" (.FuncCall c1' c2'), ?_, fun _ => rfl⟩
    simp only [genS, bindR, h1, h2, liftHook, hex]
  | .AtomTrailer c1 c2 null_ok => by
    intro st he
    simp only [EXs, Bool.and_eq_true] at he
    obtain ⟨e1, e2⟩ := he
    obtain ⟨c1', h1, -⟩ := genA_ex c1 st e1
    obtain ⟨c2', h2, -⟩ := genA_ex c2 st e2
    have hex := exitS_expr st (.AtomTrailer c1' c2' null_ok) (by simp [isExprShape])
    refine ⟨.mk "" (.AtomTrailer c1' c2' null_ok), ?_, fun _ => rfl⟩
    simp only [genS, bindR, h1, h2, liftHook, hex]
  | .ListVal c1 => by
    intro st he
    simp only [EXs] at he
    obtain ⟨c1', h1⟩ := genL_ex c1 st he
    have hex := exitS_expr st (.ListVal c1') (by simp [isExprShape])
    refine ⟨.mk "" (.ListVal c1'), ?_, fun _ => rfl⟩
    simp only [genS, bindR, h1, liftHook, hex]
  | .ExprList c1 => by
    intro st he
    simp only [EXs] at he
    obtain ⟨c1', h1⟩ := genL_ex c1 st he
    have hex := exitS_expr st (.ExprList c1') (by simp [isExprShape])
    refine ⟨.mk "" (.ExprList c1'), ?_, fun _ => rfl⟩
    simp only [genS, bindR, h1, liftHook, hex]
  | .DictVal c1 => by
    intro st he
    simp only [EXs] at he
    obtain ⟨c1', h1⟩ := genL_ex c1 st he
    have hex := exitS_expr st (.DictVal c1') (by simp [isExprShape])
    refine ⟨.mk "" (.DictVal c1'), ?_, fun _ => rfl⟩
    simp only [genS, bindR, h1, liftHook, hex]
  | .KVPair c1 c2 => by
    intro st he
    simp only [EXs, Bool.and_eq_true] at he
    obtain ⟨e1, e2⟩ := he
    obtain ⟨c1', h1, -⟩ := genA_ex c1 st e1
    obtain ⟨c2', h2, -⟩ := genA_ex c2 st e2
    have hex := exitS_expr st (.KVPair c1' c2') (by simp [isExprShape])
    refine ⟨.mk "" (.KVPair c1' c2'), ?_, fun _ => rfl⟩
    simp only [genS, bindR, h1, h2, liftHook, hex]
  | .Comprehension c1 c2 c3 c4 c5 => by
    intro st he
    simp only [EXs, Bool.and_eq_true] at he
    obtain ⟨e1, e2, e3, e4, e5⟩ := he
    obtain ⟨c1', h1⟩ := genO_ex c1 st e1
    obtain ⟨c2', h2, -⟩ := genA_ex c2 st e2
    obtain ⟨c3', h3, -⟩ := genA_ex c3 st e3
    obtain ⟨c4', h4, -⟩ := genA_ex c4 st e4
    obtain ⟨c5', h5⟩ := genO_ex c5 st e5
    have hex := exitS_expr st (.Comprehension c1' c2' c3' c4' c5') (by simp [isExprShape])
    refine ⟨.mk "" (.Comprehension c1' c2' c3' c4' c5'), ?_, fun _ => rfl⟩
    simp only [genS, bindR, h1, h2, h3, h4, h5, liftHook, hex]
  | .IndexSlice c1 c2 => by
    intro st he
    simp only [EXs, Bool.and_eq_true] at he
    obtain ⟨e1, e2⟩ := he
    obtain ⟨c1', h1, -⟩ := genA_ex c1 st e1
    obtain ⟨c2', h2⟩ := genO_ex c2 st e2
    have hex := exitS_expr st (.IndexSlice c1' c2') (by simp [isExprShape])
    refine ⟨.mk "" (.IndexSlice c1' c2'), ?_, fun _ => rfl⟩
    simp only [genS, bindR, h1, h2, liftHook, hex]
  | .ParamList c1 c2 => by
    intro st he
    simp only [EXs, Bool.and_eq_true] at he
    obtain ⟨e1, e2⟩ := he
    obtain ⟨c1', h1⟩ := genO_ex c1 st e1
    obtain ⟨c2', h2⟩ := genO_ex c2 st e2
    have hex := exitS_expr st (.ParamList c1' c2') (by simp [isExprShape])
    refine ⟨.mk "" (.ParamList c1' c2'), ?_, fun _ => rfl⟩
    simp only [genS, bindR, h1, h2, liftHook, hex]
  | .AssignmentList c1 => by
    intro st he
    simp only [EXs] at he
    obtain ⟨c1', h1⟩ := genL_ex c1 st he
    have hex := exitS_expr st (.AssignmentList c1') (by simp [isExprShape])
    refine ⟨.mk "" (.AssignmentList c1'), ?_, fun _ => rfl⟩
    simp only [genS, bindR, h1, liftHook, hex]
  | .ArchRef tag c1 => by
    intro st he
    simp only [EXs] at he
    obtain ⟨c1', h1, -⟩ := genA_ex c1 st he
    have hex := exitS_expr st (.ArchRef tag c1') (by simp [isExprShape])
    refine ⟨.mk "" (.ArchRef tag c1'), ?_, fun _ => rfl⟩
    simp only [genS, bindR, h1, liftHook, hex]
  | .HereRef c1 => by
    intro st he
    simp only [EXs] at he
    obtain ⟨c1', h1⟩ := genO_ex c1 st he
    have hex := exitS_expr st (.HereRef c1') (by simp [isExprShape])
    refine ⟨.mk "" (.HereRef c1'), ?_, fun _ => rfl⟩
    simp only [genS, bindR, h1, liftHook, hex]
  | .VisitorRef c1 => by
    intro st he
    simp only [EXs] at he
    obtain ⟨c1', h1⟩ := genO_ex c1 st he
    have hex := exitS_expr st (.VisitorRef c1') (by simp [isExprShape])
    refine ⟨.mk "" (.VisitorRef c1'), ?_, fun _ => rfl⟩
    simp only [genS, bindR, h1, liftHook, hex]

/-- Pure-expression behaviour of `genL` (see `genA_ex`). -/
theorem genL_ex (l : AstList) :
    ∀ st, EXl l = true → ∃ l', genL st l = .ok (st, l') :=
  match l with
  | .nil => by
    intro st _
    exact ⟨.nil, by simp [genL]⟩
  | .cons hd tl => by
    intro st he
    simp only [EXl, Bool.and_eq_true] at he
    obtain ⟨hd', h1, -⟩ := genA_ex hd st he.1
    obtain ⟨tl', h2⟩ := genL_ex tl st he.2
    exact ⟨.cons hd' tl', by simp only [genL, bindR, h1, h2]⟩

/-- Pure-expression behaviour of `genO` (see `genA_ex`). -/
theorem genO_ex (o : AstOpt) :
    ∀ st, EXo o = true → ∃ o', genO st o = .ok (st, o') :=
  match o with
  | .none => by
    intro st _
    exact ⟨.none, by simp [genO]⟩
  | .some a => by
    intro st he
    simp only [EXo] at he
    obtain ⟨a', h1, -⟩ := genA_ex a st he
    exact ⟨.some a', by simp only [genO, bindR, h1]⟩

end


theorem str_empty_append (s : String) : "" ++ s = s := by
  cases s
  rfl

theorem str_append_empty (s : String) : s ++ "" = s := by
  cases s with
  | mk data => show String.mk (data ++ []) = String.mk data; rw [List.append_nil]

theorem nlReplace_go_empty (l : List Char) : nlReplace.go "" l = l := by
  induction l with
  | nil => rfl
  | cons c cs ih =>
    simp only [nlReplace.go]
    split
    · next h => subst h; simpa using ih
    · simpa using ih

/-- With no indentation to insert, the newline replacement of `emit_ln`
is the identity. -/
theorem nlReplace_empty (s : String) : nlReplace "" s = s := by
  cases s with
  | mk data =>
    show String.mk (nlReplace.go "" data) = String.mk data
    rw [nlReplace_go_empty]

theorem indentStr_zero {st : St} (h : st.indent_level = 0) : st.indentStr 0 = "" := by
  unfold St.indentStr
  rw [h]
  rfl

theorem indentStr_one {st : St} (hl : st.indent_level = 0) (hs : st.indent_size = 4) :
    st.indentStr 1 = "    " := by
  unfold St.indentStr
  rw [hl, hs]
  rfl

/-- An `emit_ln(node, s)` at indentation level `0` appends `s ++ "\n"`. -/
theorem emitLn_meta_zero {st : St} (meta s : String) (h : st.indent_level = 0) :
    (st.emitLn meta s 0).2 = meta ++ (s ++ "\n") := by
  simp only [St.emitLn, St.emitLnStr, indentStr_zero h, nlReplace_empty, str_empty_append]

/-- An `emit_ln(node, s, indent_delta=1)` at level `0` with the default
indent size prepends four spaces and re-indents embedded newlines. -/
theorem emitLn_meta_one {st : St} (meta s : String) (hl : st.indent_level = 0)
    (hs : st.indent_size = 4) :
    (st.emitLn meta s 1).2 = meta ++ ("    " ++ nlReplace "    " s ++ "\n") := by
  simp only [St.emitLn, St.emitLnStr, indentStr_one hl hs]

theorem emitLn_state {st : St} (meta s : String) (d : Nat) :
    (st.emitLn meta s d).1 = { st with indent_reads := st.indent_reads ++ [st.indent_level] } :=
  rfl

theorem emitLn_level {st : St} (meta s : String) (d : Nat) :
    (st.emitLn meta s d).1.indent_level = st.indent_level := rfl

theorem emitLn_size {st : St} (meta s : String) (d : Nat) :
    (st.emitLn meta s d).1.indent_size = st.indent_size := rfl

theorem emitLnList_level (ss : List String) : ∀ (st : St) (meta : String) (d : Nat),
    (st.emitLnList meta ss d).1.indent_level = st.indent_level := by
  induction ss with
  | nil => intro st meta d; rfl
  | cons s rest ih =>
    intro st meta d
    simp only [St.emitLnList]
    rw [ih]
    rfl

theorem emitLnList_size (ss : List String) : ∀ (st : St) (meta : String) (d : Nat),
    (st.emitLnList meta ss d).1.indent_size = st.indent_size := by
  induction ss with
  | nil => intro st meta d; rfl
  | cons s rest ih =>
    intro st meta d
    simp only [St.emitLnList]
    rw [ih]
    rfl

/-- One source line per list entry, each terminated by a newline (what a
`for i in …: emit_ln(node, i.meta)` loop produces at level `0`). -/
def linesOf : List String → String
  | [] => ""
  | s :: rest => s ++ "\n" ++ linesOf rest

theorem emitLnList_meta_zero (ss : List String) : ∀ (st : St) (meta : String),
    st.indent_level = 0 → (st.emitLnList meta ss 0).2 = meta ++ linesOf ss := by
  induction ss with
  | nil => intro st meta _; simp [St.emitLnList, linesOf, str_append_empty]
  | cons s rest ih =>
    intro st meta h
    simp only [St.emitLnList]
    rw [ih _ _ (by rw [emitLn_level]; exact h), emitLn_meta_zero _ _ h, linesOf]
    simp [String.append_assoc]

/-- A general `Token` node evaluates to itself with `py_code = value`
(`exit_token`). -/
theorem gen_token (st : St) (m n v : String) :
    genA st (.mk m (.Token n v)) = .ok (st, .mk v (.Token n v)) := by
  simp [genA, genS, liftHook, exitS, emitRaw, str_empty_append]

/-- A fresh token node, as the parser builds it. -/
def tok (v : String) : Ast := .mk "" (.Token "NAME" v)

/-- The same token after the pass (its meta slot holds its value). -/
def processedTok (v : String) : Ast := .mk v (.Token "NAME" v)

theorem gen_tok (st : St) (v : String) : genA st (tok v) = .ok (st, processedTok v) :=
  gen_token st "" "NAME" v

/-- An optional token child. -/
def optTok : Option String → AstOpt
  | Option.none => .none
  | Option.some a => .some (tok a)

/-- The optional token child after the pass. -/
def processedOptTok : Option String → AstOpt
  | Option.none => .none
  | Option.some a => .some (processedTok a)

theorem gen_optTok (st : St) (al : Option String) :
    genO st (optTok al) = .ok (st, processedOptTok al) := by
  cases al <;> simp [optTok, processedOptTok, genO, gen_tok, bindR]

/-- A list of fresh token nodes. -/
def mkToks : List String → AstList
  | [] => .nil
  | v :: r => .cons (tok v) (mkToks r)

/-- The token list after the pass. -/
def processedToks : List String → AstList
  | [] => .nil
  | v :: r => .cons (processedTok v) (processedToks r)

theorem gen_mkToks (vs : List String) : ∀ st, genL st (mkToks vs) = .ok (st, processedToks vs) := by
  induction vs with
  | nil => intro st; simp [mkToks, processedToks, genL]
  | cons v r ih => intro st; simp [mkToks, processedToks, genL, gen_tok, bindR, ih]

theorem processedToks_tokValues (vs : List String) : (processedToks vs).tokValues = vs := by
  induction vs with
  | nil => rfl
  | cons v r ih => simp [processedToks, AstList.tokValues, processedTok, Ast.tokValue, ih]

/-- A `ModulePath` node over the given dotted-path token values. -/
def pathTree (vs : List String) : Ast := .mk "" (.ModulePath (mkToks vs))

theorem gen_pathTree (st : St) (vs : List String) :
    genA st (pathTree vs) =
      .ok (st, .mk (String.join vs) (.ModulePath (processedToks vs))) := by
  simp [pathTree, genA, genS, gen_mkToks, bindR, liftHook, exitS, processedToks_tokValues]

/-- How `exit_module_item` renders one imported item. -/
def renderItem : String × Option String → String
  | (nm, Option.none) => nm
  | (nm, Option.some a) => nm ++ " as " ++ a

/-- A `ModuleItem` node (`name` or `name as alias`). -/
def mkItem (p : String × Option String) : Ast := .mk "" (.ModuleItem (tok p.1) (optTok p.2))

/-- The `ModuleItem` node after the pass. -/
def processedItem (p : String × Option String) : Ast :=
  .mk (renderItem p) (.ModuleItem (processedTok p.1) (processedOptTok p.2))

theorem gen_mkItem (st : St) (p : String × Option String) :
    genA st (mkItem p) = .ok (st, processedItem p) := by
  obtain ⟨nm, al⟩ := p
  show genS st (.ModuleItem (tok nm) (optTok al)) = _
  simp only [genS]
  rw [gen_tok]
  simp only [bindR]
  rw [gen_optTok]
  simp only [bindR]
  cases al <;>
    simp [liftHook, exitS, processedItem, renderItem, AstOpt.isToken, processedOptTok,
      processedTok, AstOpt.tokValue, Ast.tokValue, emitRaw, str_empty_append]

/-- A list of `ModuleItem` nodes. -/
def mkItemList : List (String × Option String) → AstList
  | [] => .nil
  | p :: r => .cons (mkItem p) (mkItemList r)

/-- The `ModuleItem` list after the pass. -/
def processedItemList : List (String × Option String) → AstList
  | [] => .nil
  | p :: r => .cons (processedItem p) (processedItemList r)

theorem gen_mkItemList (ps : List (String × Option String)) :
    ∀ st, genL st (mkItemList ps) = .ok (st, processedItemList ps) := by
  induction ps with
  | nil => intro st; simp [mkItemList, processedItemList, genL]
  | cons p r ih => intro st; simp [mkItemList, processedItemList, genL, gen_mkItem, bindR, ih]

theorem processedItemList_metas (ps : List (String × Option String)) :
    (processedItemList ps).metas = ps.map renderItem := by
  induction ps with
  | nil => rfl
  | cons p r ih => simp [processedItemList, AstList.metas, processedItem, Ast.metaOf, ih]

/-- A `ModuleItems` node over the given items. -/
def itemsTree (ps : List (String × Option String)) : Ast := .mk "" (.ModuleItems (mkItemList ps))

theorem gen_itemsTree (st : St) (ps : List (String × Option String)) :
    genA st (itemsTree ps) =
      .ok (st, .mk (String.intercalate ", " (ps.map renderItem))
        (.ModuleItems (processedItemList ps))) := by
  simp [itemsTree, genA, genS, gen_mkItemList, bindR, liftHook, exitS, processedItemList_metas]

/-- The optional `items` child of an `Import` node. -/
def optItems : Option (List (String × Option String)) → AstOpt
  | Option.none => .none
  | Option.some ps => .some (itemsTree ps)

/-- The optional `items` child after the pass. -/
def processedOptItems : Option (List (String × Option String)) → AstOpt
  | Option.none => .none
  | Option.some ps =>
    .some (.mk (String.intercalate ", " (ps.map renderItem))
      (.ModuleItems (processedItemList ps)))

theorem gen_optItems (st : St) (its : Option (List (String × Option String))) :
    genO st (optItems its) = .ok (st, processedOptItems its) := by
  cases its <;> simp [optItems, processedOptItems, genO, gen_itemsTree, bindR]

/-- An `Import` node as the parser builds it: language token, dotted
module path, optional alias token, optional items list, absorb flag. -/
def importTree (line : Nat) (langV : String) (pathVs : List String)
    (al : Option String) (its : Option (List (String × Option String)))
    (absorb : Bool) : Ast :=
  .mk "" (.Import line (tok langV) (pathTree pathVs) (optTok al) (optItems its) absorb)

/-- A bare-token `TypeSpec` node (no `List`/`Dict` nesting). -/
def typeTok (T : String) : Ast := .mk "" (.TypeSpec (tok T) .none .none)

theorem gen_typeTok (st : St) (T : String) :
    genA st (typeTok T) = .ok (st, .mk T (.TypeSpec (processedTok T) .none .none)) := by
  show genS st (.TypeSpec (tok T) .none .none) = _
  simp only [genS]
  rw [gen_tok]
  simp only [bindR, genO]
  simp [liftHook, exitS, AstOpt.isSome, processedTok, Ast.tokValue, emitRaw, str_empty_append]

/-- How `exit_has_var` renders one declared variable. -/
def renderHasVar : String × String × Option String → String
  | (nm, T, Option.none) => "self." ++ nm ++ ": " ++ T ++ " = None"
  | (nm, T, Option.some v) => "self." ++ nm ++ ": " ++ T ++ " = " ++ v

/-- A `HasVar` node: name token, bare type, optional token value. -/
def mkHasVar (p : String × String × Option String) : Ast :=
  .mk "" (.HasVar (tok p.1) (typeTok p.2.1) (optTok p.2.2))

/-- The `HasVar` node after the pass. -/
def processedHasVar (p : String × String × Option String) : Ast :=
  .mk (renderHasVar p)
    (.HasVar (processedTok p.1) (.mk p.2.1 (.TypeSpec (processedTok p.2.1) .none .none))
      (processedOptTok p.2.2))

theorem gen_mkHasVar (st : St) (p : String × String × Option String) :
    genA st (mkHasVar p) = .ok (st, processedHasVar p) := by
  obtain ⟨nm, T, v⟩ := p
  show genS st (.HasVar (tok nm) (typeTok T) (optTok v)) = _
  simp only [genS]
  rw [gen_tok]
  simp only [bindR]
  rw [gen_typeTok]
  simp only [bindR]
  rw [gen_optTok]
  simp only [bindR]
  cases v <;>
    simp [liftHook, exitS, processedHasVar, renderHasVar, AstOpt.isSome, processedOptTok,
      processedTok, AstOpt.metaOf, Ast.metaOf, Ast.tokValue, emitRaw, str_empty_append]

/-- A list of `HasVar` nodes. -/
def mkHasVars : List (String × String × Option String) → AstList
  | [] => .nil
  | p :: r => .cons (mkHasVar p) (mkHasVars r)

/-- The `HasVar` list after the pass. -/
def processedHasVars : List (String × String × Option String) → AstList
  | [] => .nil
  | p :: r => .cons (processedHasVar p) (processedHasVars r)

theorem gen_mkHasVars (vs : List (String × String × Option String)) :
    ∀ st, genL st (mkHasVars vs) = .ok (st, processedHasVars vs) := by
  induction vs with
  | nil => intro st; simp [mkHasVars, processedHasVars, genL]
  | cons p r ih => intro st; simp [mkHasVars, processedHasVars, genL, gen_mkHasVar, bindR, ih]

theorem processedHasVars_metas (vs : List (String × String × Option String)) :
    (processedHasVars vs).metas = vs.map renderHasVar := by
  induction vs with
  | nil => rfl
  | cons p r ih => simp [processedHasVars, AstList.metas, processedHasVar, Ast.metaOf, ih]

/-- A `HasVarList` node over the given variables. -/
def hasVarListTree (vs : List (String × String × Option String)) : Ast :=
  .mk "" (.HasVarList (mkHasVars vs))

theorem gen_hasVarListTree (st : St) (vs : List (String × String × Option String))
    (hl : st.indent_level = 0) :
    genA st (hasVarListTree vs) =
      .ok ((st.emitLnList "" (vs.map renderHasVar) 0).1,
        .mk (linesOf (vs.map renderHasVar)) (.HasVarList (processedHasVars vs))) := by
  show genS st (.HasVarList (mkHasVars vs)) = _
  simp only [genS]
  rw [gen_mkHasVars]
  simp only [bindR]
  simp [liftHook, exitS, processedHasVars_metas, emitLnList_meta_zero _ _ _ hl,
    str_empty_append, emitRaw]

/-- A `DocString` node over an optional doc token. -/
def docStringOf (d : Option String) : Ast := .mk "" (.DocString (optTok d))

/-- The text `exit_doc_string` contributes at indentation level `0`. -/
def docLine : Option String → String
  | Option.none => ""
  | Option.some d => d ++ "\n"

theorem gen_docString_none (st : St) :
    genA st (docStringOf Option.none) = .ok (st, .mk "" (.DocString .none)) := by
  show genS st (.DocString (optTok Option.none)) = _
  simp only [genS]
  rw [gen_optTok]
  simp only [bindR]
  simp [liftHook, exitS, processedOptTok, AstOpt.isToken]

theorem gen_docString_some (st : St) (d : String) (hl : st.indent_level = 0) :
    genA st (docStringOf (Option.some d)) =
      .ok ({ st with indent_reads := st.indent_reads ++ [st.indent_level] },
        .mk (d ++ "\n") (.DocString (.some (processedTok d)))) := by
  show genS st (.DocString (optTok (Option.some d))) = _
  simp only [genS]
  rw [gen_optTok]
  simp only [bindR]
  simp [liftHook, exitS, processedOptTok, AstOpt.isToken, AstOpt.tokValue, processedTok,
    Ast.tokValue, emitLn_meta_zero _ _ hl, emitLn_state, str_empty_append]

/-- An `ArchHas` node: doc string, no access specifier, variable list,
synthesized id. -/
def archHasTree (h_id : Nat) (d : Option String) (vs : List (String × String × Option String)) :
    Ast :=
  .mk "" (.ArchHas (docStringOf d) .none (hasVarListTree vs) h_id)

/-- A lone `Parse` node, as would be left behind if the AST-build stage
failed to replace it. -/
def parseTree : Ast := .mk "" (.Parse "expr")

/-- C1 counterexample: on an AST containing a `Parse` node the pass does
not return normally.  `exit_parse` records the fatal error in the sink
and then raises `ValueError("Parse node should not be in AST after being
Built!!")`, which crosses the traversal boundary. -/
theorem c1_parse_raises_counterexample :
    passRaised parseTree = true ∧
      (finalState parseTree).errors = ["Parse node should not be in this AST!!"] ∧
      excMessage parseTree = Option.some "Parse node should not be in AST after being Built!!" := by
  refine ⟨rfl, rfl, rfl⟩

/-- C1 (amended): on every well-typed input AST that contains no `Parse`
node, the code-generation pass returns normally — no exception crosses
the traversal boundary; problems are accumulated in the diagnostic sink.
(The claim as stated is false: for a `Parse` node the pass records the
fatal error in its sink but then raises, see
`c1_parse_raises_counterexample`.) -/
theorem c1_no_throw_without_parse (t : Ast) (hw : WTa t = true) (hn : NPa t = true) :
    (runPass t).isOk = true := by
  obtain ⟨st', t', h⟩ := genA_ok t initSt hw hn
  unfold runPass
  rw [h]
  rfl

/-- C1 witness: a concrete well-typed, parse-free tree on which the pass
returns normally. -/
theorem c1_no_throw_without_parse_witness :
    WTa (tok "x") = true ∧ NPa (tok "x") = true ∧ (runPass (tok "x")).isOk = true :=
  ⟨by decide, by decide, c1_no_throw_without_parse (tok "x") (by decide) (by decide)⟩

/-- A module with a nested block structure: module code whose code block
contains an `if` statement with its own inner code block. -/
def nestedBlockTree : Ast :=
  .mk "" (.Module "m" (tok "")
    (.mk "" (.Elements (.cons (.mk "" (.ModuleCode (docStringOf Option.none)
      (.mk "" (.CodeBlock (.cons
        (.mk "" (.IfStmt (.mk "" (.BinaryExpr (tok "a") (tok "b") (tok "<")))
          (.mk "" (.CodeBlock (.cons (.mk "" (.CtrlStmt (tok "break"))) .nil)))
          .none .none))
        .nil))))) .nil))))

/-- C2 counterexample: on a concrete module with a nested block (an `if`
body inside a code block), emissions do happen (`indent_reads ≠ []`) yet
every value `emit_ln` read from `indent_level` — including while the
nested block body was being emitted — is `0`, and the final
`indent_level` is `0`.  `indent_level` is never incremented on entering
a block body: no statement of `PyCodeGenPass` assigns it after
`__init__`. -/
theorem c2_indent_level_constant_counterexample :
    (finalState nestedBlockTree).indent_reads ≠ [] ∧
      (∀ r ∈ (finalState nestedBlockTree).indent_reads, r = 0) ∧
      (finalState nestedBlockTree).indent_level = 0 := by
  refine ⟨by decide, by decide, by decide⟩

/-- C2 (amended): the generator's `indent_level` is initialized to `0`
and never modified — whatever tree the pass runs on, the final
`indent_level` is still `0` and every read `emit_ln` performed saw `0`.
Indentation of nested content comes solely from the `indent_delta`
argument of `emit_ln` and its newline re-indentation, not from mutating
`indent_level`. -/
theorem c2_indent_level_never_incremented (t : Ast) (st' : St) (t' : Ast)
    (h : runPass t = .ok (st', t')) :
    st'.indent_level = 0 ∧ ∀ r ∈ st'.indent_reads, r = 0 := by
  have hf := genA_flat t initSt flat_initSt
  unfold runPass at h
  rw [h] at hf
  simp only [stFin] at hf
  exact ⟨hf.2.1, hf.2.2⟩

/-- C2 witness: the amended statement instantiated on a concrete run. -/
theorem c2_indent_level_never_incremented_witness :
    runPass (tok "x") = .ok (initSt, processedTok "x") ∧
      initSt.indent_level = 0 ∧ ∀ r ∈ initSt.indent_reads, r = 0 :=
  ⟨gen_tok initSt "x",
   c2_indent_level_never_incremented (tok "x") initSt (processedTok "x") (gen_tok initSt "x")⟩

/-- C9: rerunning the code-generation pass (a fresh pass instance, as
the schedule creates) on the very tree the first run mutated yields a
byte-identical result: the same final state and the same tree, and in
particular the same target text.  This holds because `enter_node` resets
each node's `py_code` slot to `""` on entry instead of appending to the
previous run's output. -/
theorem c9_rerun_byte_identical (t : Ast) (st' : St) (t' : Ast)
    (h : runPass t = .ok (st', t')) : runPass t' = .ok (st', t') :=
  genA_fix t initSt st' t' h

/-- C9 witness: a concrete rerun reproducing its own output. -/
theorem c9_rerun_byte_identical_witness :
    runPass (tok "x") = .ok (initSt, processedTok "x") ∧
      runPass (processedTok "x") = .ok (initSt, processedTok "x") :=
  ⟨gen_tok initSt "x",
   c9_rerun_byte_identical (tok "x") initSt (processedTok "x") (gen_tok initSt "x")⟩

/-- C10: on any pure expression tree (every node a `Token` or one of the
expression kinds whose handlers are empty: `Assignment`, `BinaryExpr`,
`UnaryExpr`, `IfElseExpr`, `FuncCall`, `AtomTrailer`, `ListVal`,
`ExprList`, `DictVal`, `KVPair`, `Comprehension`, `IndexSlice`,
`ParamList`, `AssignmentList`, the reference variants, `HereRef`,
`VisitorRef`), the pass leaves the state exactly unchanged — no
diagnostic is recorded — and, when the root is one of those expression
kinds, its `py_code` stays the empty string written at node entry; any
statement interpolating such an expression's `py_code` therefore splices
in an empty string. -/
theorem c10_expression_handlers_emit_nothing (t : Ast) (st : St) (he : EXa t = true) :
    ∃ t', genA st t = .ok (st, t') ∧ (isExprShape t.shapeOf = true → t'.metaOf = "") :=
  genA_ex t st he

/-- C10 witness: a concrete binary expression evaluated by the pass. -/
theorem c10_expression_handlers_emit_nothing_witness :
    EXa (.mk "junk" (.BinaryExpr (tok "a") (tok "b") (tok "+"))) = true ∧
      ∃ t', genA initSt (.mk "junk" (.BinaryExpr (tok "a") (tok "b") (tok "+"))) =
          .ok (initSt, t') ∧
        (isExprShape (Ast.shapeOf (.mk "junk" (.BinaryExpr (tok "a") (tok "b") (tok "+")))) =
            true → t'.metaOf = "") :=
  ⟨by decide,
   c10_expression_handlers_emit_nothing (.mk "junk" (.BinaryExpr (tok "a") (tok "b") (tok "+")))
     initSt (by decide)⟩

/-- `object Foo {}` as a whole module: one architype element, no doc
string at either module or class level, no base classes, empty body. -/
def fooObjectTree : Ast :=
  .mk "" (.Module "m" (tok "")
    (.mk "" (.Elements (.cons (.mk "" (.Architype 1 (tok "Foo") (tok "object")
      (docStringOf Option.none) .none .none (.mk "" (.ArchBlock .nil)))) .nil))))

/-- Whether the text `s` begins with `pre` (character-list prefix). -/
def textBeginsWith (s pre : String) : Bool := pre.data.isPrefixOf s.data

/-- C6 counterexample: for the module whose only element is
`object Foo {}` with no doc string, the generated target text does NOT
begin with `class Foo:` — `exit_module` emits the module doc line
unconditionally, so the text begins with an empty doc line (a bare
newline). -/
theorem c6_doc_line_unconditional_counterexample :
    textBeginsWith (pyCodeOf fooObjectTree) "class Foo:" = false ∧
      textBeginsWith (pyCodeOf fooObjectTree) "\n" = true := by
  refine ⟨by decide, by decide⟩

/-- C6 (amended): for `object Foo {}` with no doc string the generated
text is exactly an empty module-doc line, then `class Foo:`, then the
indented blank line `exit_architype` emits for the absent class doc
(`exit_doc_string` omits the doc content itself when the value is not a
token, but the `emit_ln` calls around it still run): the text begins
with `class Foo:` only after the unconditional doc-line newline. -/
theorem c6_minimal_object_text :
    pyCodeOf fooObjectTree = "\n" ++ ("class Foo:" ++ "\n    \n") := by
  decide

/-- A `Ctrl` statement holding a `break` token. -/
def breakCtrlTree : Ast := .mk "" (.CtrlStmt (tok "break"))

/-- C7 counterexample: for the `break` control statement the generator
does record a diagnostic — the `@Pass.incomplete` decorator on
`exit_ctrl_stmt` attaches its feature warning (modelled from the spec,
§4.1/§9) — while emitting `break` verbatim as a line. -/
theorem c7_break_warning_counterexample :
    (finalState breakCtrlTree).warnings = ["feature not implemented"] ∧
      pyCodeOf breakCtrlTree = "break" ++ "\n" := by
  refine ⟨by decide, by decide⟩

/-- C7 (amended): for every `Ctrl` statement, `break`/`continue` (any
token other than `skip`) is emitted verbatim as a line while the only
diagnostic recorded is the incomplete-handler feature warning; `skip`
emits nothing and is recorded in the pass's **error** sequence (via
`self.error`, not as a warning), again alongside the decorator's feature
warning. -/
theorem c7_ctrl_stmt_behaviour (m0 m1 tn v : String) :
    ∃ st' t',
      runPass (.mk m0 (.CtrlStmt (.mk m1 (.Token tn v)))) = .ok (st', t') ∧
      t'.metaOf = (if v = "skip" then "" else v ++ "\n") ∧
      st'.warnings = ["feature not implemented"] ∧
      st'.errors = (if v = "skip" then ["skip is not supported in bootstrap Jac"] else []) := by
  by_cases hv : v = "skip"
  · subst hv
    refine ⟨St.mk 4 0 ["feature not implemented"] ["skip is not supported in bootstrap Jac"] [],
      .mk "" (.CtrlStmt (.mk "skip" (.Token tn "skip"))), ?_, by simp [Ast.metaOf], rfl, by simp⟩
    show genA initSt (.mk m0 (.CtrlStmt (.mk m1 (.Token tn "skip")))) = _
    simp only [genA, genS]
    simp [liftHook, exitS, bindR, Ast.tokValue, emitRaw, str_empty_append, initSt,
      St.incomplete, St.warn, St.err]
  · refine ⟨St.mk 4 0 ["feature not implemented"] [] [0],
      .mk (v ++ "\n") (.CtrlStmt (.mk v (.Token tn v))), ?_, by simp [Ast.metaOf, hv], rfl,
      by simp [hv]⟩
    show genA initSt (.mk m0 (.CtrlStmt (.mk m1 (.Token tn v)))) = _
    simp only [genA, genS]
    simp [liftHook, exitS, bindR, Ast.tokValue, emitRaw, str_empty_append, hv,
      St.emitLn, St.emitLnStr, St.indentStr, nlReplace_empty, initSt,
      St.incomplete, St.warn]

/-- C3: after the pass, a module's `py_code` is the doc-string line
(`node.doc.value` followed by a newline — the fixed decoration
`exit_module` adds) concatenated with its body's `py_code`, which is
itself exactly the concatenation, in document order, of the `py_code`
slots of the elements; and it is never the empty string. -/
theorem c3_module_concatenates_elements (m0 m1 m2 name tn tv : String) (es : AstList)
    (st' : St) (t' : Ast)
    (h : runPass (.mk m0 (.Module name (.mk m1 (.Token tn tv)) (.mk m2 (.Elements es)))) =
      .ok (st', t')) :
    ∃ es', t' = .mk (tv ++ "\n" ++ String.join es'.metas)
        (.Module name (.mk tv (.Token tn tv)) (.mk (String.join es'.metas) (.Elements es'))) ∧
      t'.metaOf ≠ "" := by
  unfold runPass at h
  simp only [genA, genS, liftHook, exitS, bindR, emitRaw, str_empty_append, Ast.tokValue,
    Ast.metaOf] at h
  cases hL : genL initSt es with
  | error e =>
    rw [hL] at h
    simp at h
  | ok p =>
    obtain ⟨st1, es'⟩ := p
    rw [hL] at h
    have hF : Flat st1 := by
      have hfl := genL_flat es initSt flat_initSt
      rw [hL] at hfl
      simpa [stFin] using hfl
    simp only [Ast.tokValue, Ast.metaOf, emitRaw] at h
    rw [emitLn_meta_zero _ _ hF.2.1] at h
    simp only [str_empty_append, Except.ok.injEq, Prod.mk.injEq] at h
    obtain ⟨-, hteq⟩ := h
    refine ⟨es', hteq.symm, ?_⟩
    · rw [← hteq]
      intro hcontra
      simp only [Ast.metaOf] at hcontra
      have hlen := congrArg String.length hcontra
      simp [String.length_append] at hlen
      exact absurd hlen.1.2 (by decide)

/-- C3 witness: the module property instantiated on a concrete module
with a doc token and an empty element list. -/
theorem c3_module_concatenates_elements_witness :
    ∃ es', (Ast.mk "doc\n" (.Module "m" (.mk "doc" (.Token "NAME" "doc"))
        (.mk "" (.Elements .nil)))) =
      .mk ("doc" ++ "\n" ++ String.join es'.metas)
        (.Module "m" (.mk "doc" (.Token "NAME" "doc"))
          (.mk (String.join es'.metas) (.Elements es'))) ∧
      (Ast.mk "doc\n" (.Module "m" (.mk "doc" (.Token "NAME" "doc"))
        (.mk "" (.Elements .nil)))).metaOf ≠ "" :=
  c3_module_concatenates_elements "" "" "" "m" "NAME" "doc" .nil (St.mk 4 0 [] [] [0])
    (.mk "doc\n" (.Module "m" (.mk "doc" (.Token "NAME" "doc")) (.mk "" (.Elements .nil))))
    rfl

theorem indent_size_ite (c : Prop) [Decidable c] (a b : St) :
    (if c then a else b).indent_size = if c then a.indent_size else b.indent_size := by
  split <;> rfl

theorem indent_level_ite (c : Prop) [Decidable c] (a b : St) :
    (if c then a else b).indent_level = if c then a.indent_level else b.indent_level := by
  split <;> rfl

/-- C4: emission of a target-language `Import` node (`exit_import`,
`exit_module_path`, `exit_module_items`, `exit_module_item`): with no
items and no alias the line is `import X`; with only an alias,
`import X as A`; with an items list, `from X import …` where the items
are joined by `", "` and each renders as `name` or `name as alias`.  `X`
is the concatenation of the module-path token values.  In particular the
items `pi` and `sin as s` from `math` emit exactly
`from math import pi, sin as s` (as a newline-terminated line). -/
theorem c4_import_emission (line : Nat) (langV : String) (pathVs : List String)
    (al : Option String) (its : Option (List (String × Option String))) (absorb : Bool) :
    ∃ st' t', runPass (importTree line langV pathVs al its absorb) = .ok (st', t') ∧
      t'.metaOf =
        (match its, al with
          | Option.none, Option.none => "import " ++ String.join pathVs ++ "\n"
          | Option.none, Option.some a => "import " ++ String.join pathVs ++ " as " ++ a ++ "\n"
          | Option.some ps, _ =>
            "from " ++ String.join pathVs ++ " import " ++
              String.intercalate ", " (ps.map renderItem) ++ "\n") := by
  unfold importTree runPass
  simp only [genA]
  simp only [genS]
  rw [gen_tok]
  simp only [bindR]
  rw [gen_pathTree]
  simp only [bindR]
  rw [gen_optTok]
  simp only [bindR]
  rw [gen_optItems]
  simp only [bindR]
  rcases its with _ | ps <;> rcases al with _ | a <;>
    (simp only [liftHook, exitS, processedOptItems, processedOptTok, AstOpt.isSome,
       AstOpt.metaOf, Ast.metaOf, Ast.tokValue, processedTok, tok];
     refine ⟨_, _, rfl, ?_⟩;
     simp [Ast.metaOf, St.emitLn, St.emitLnStr, St.indentStr, St.incomplete, St.warn,
       indent_size_ite, indent_level_ite, ite_self, initSt, nlReplace_empty,
       str_empty_append, emitRaw, String.append_assoc])

/-- C5: the generated code of an `ArchHas` node is the synthesized
initializer `exit_arch_has` builds: a `def has_<id>:` header line, then
the doc string (indented one level, an empty line when absent), then —
indented one level — one assignment line per declared variable, each of
the form `self.<name>: <Type> = <value>` when the variable has an
initial value and `self.<name>: <Type> = None` when it has none
(`exit_has_var`, `exit_has_var_list`).  In particular
`has x: int = 5;` yields the line `self.x: int = 5` within the body. -/
theorem c5_arch_has_initializer (h_id : Nat) (d : Option String)
    (vs : List (String × String × Option String)) :
    ∃ st' t', runPass (archHasTree h_id d vs) = .ok (st', t') ∧
      t'.metaOf = "def has_" ++ toString h_id ++ ":" ++ "\n" ++
        ("    " ++ nlReplace "    " (docLine d) ++ "\n") ++
        ("    " ++ nlReplace "    " (linesOf (vs.map renderHasVar)) ++ "\n") := by
  have hrun : runPass (archHasTree h_id d vs) =
      genS initSt (.ArchHas (docStringOf d) .none (hasVarListTree vs) h_id) := rfl
  rw [hrun]
  simp only [genS]
  rcases d with _ | dv
  · rw [gen_docString_none]
    simp only [bindR, genO]
    rw [gen_hasVarListTree initSt vs rfl]
    simp only [bindR, liftHook, exitS]
    refine ⟨_, _, rfl, ?_⟩
    have l0 : ((initSt.emitLnList "" (vs.map renderHasVar) 0).1).indent_level = 0 := by
      rw [emitLnList_level]
      rfl
    have s4 : ((initSt.emitLnList "" (vs.map renderHasVar) 0).1).indent_size = 4 := by
      rw [emitLnList_size]
      rfl
    simp only [Ast.metaOf]
    rw [emitLn_meta_one _ _ (by rw [emitLn_level, emitLn_level]; exact l0)
        (by rw [emitLn_size, emitLn_size]; exact s4)]
    rw [emitLn_meta_one _ _ (by rw [emitLn_level]; exact l0) (by rw [emitLn_size]; exact s4)]
    rw [emitLn_meta_zero _ _ l0]
    simp [docLine, str_empty_append]
  · rw [gen_docString_some initSt dv rfl]
    simp only [bindR, genO]
    rw [gen_hasVarListTree _ vs rfl]
    simp only [bindR, liftHook, exitS]
    refine ⟨_, _, rfl, ?_⟩
    have l0 : ((({ initSt with
          indent_reads := initSt.indent_reads ++ [initSt.indent_level] } :
            St).emitLnList "" (vs.map renderHasVar) 0).1).indent_level = 0 := by
      rw [emitLnList_level]
      rfl
    have s4 : ((({ initSt with
          indent_reads := initSt.indent_reads ++ [initSt.indent_level] } :
            St).emitLnList "" (vs.map renderHasVar) 0).1).indent_size = 4 := by
      rw [emitLnList_size]
      rfl
    simp only [Ast.metaOf]
    rw [emitLn_meta_one _ _ (by rw [emitLn_level, emitLn_level]; exact l0)
        (by rw [emitLn_size, emitLn_size]; exact s4)]
    rw [emitLn_meta_one _ _ (by rw [emitLn_level]; exact l0) (by rw [emitLn_size]; exact s4)]
    rw [emitLn_meta_zero _ _ l0]
    simp [docLine, str_empty_append]

/-- Whether `s` ends with `suffix` (`str.endswith` in Python), computed
on the character lists. -/
def strEndsWith (s suffix : String) : Bool := suffix.data.isSuffixOf s.data

/-- Observable outcome of one CLI command from `src/jaclang/cli/cli.py`:
what it printed, which `jac_import` calls it made (target module, base
path, override name), and the exception, if any, that escaped it
uncaught.  `jac_import` and `AstTool` live outside the sampled sources;
their outcomes enter as parameters of the commands that use them. -/
structure CmdOutcome where
  prints : List String
  jacImports : List (String × String × Option String)
  raisedExc : Option String
deriving DecidableEq, Repr

/-- `os.path.split`: split a path at the last `/` separator (the
root-path corner case `"/x" ↦ ("/", "x")` is simplified to
`("", "x") ↦ …` style splitting, irrelevant to the claims below). -/
def osPathSplit (p : String) : String × String :=
  let parts := p.splitOn "/"
  (String.intercalate "/" parts.dropLast, parts.getLastD "")

/-- The `run` command: for a `.jac` file, split off the module name and
invoke `jac_import` on it (override name `__main__` when `main` is set);
otherwise print `Not a .jac file.` and return.  No path sets an exit
status. -/
def runCmd (filename : String) (main : Bool) : CmdOutcome :=
  if strEndsWith filename ".jac" then
    let p := osPathSplit filename
    let base := if p.1 = "" then "./" else p.1
    let mod := p.2.dropRight 4
    { prints := [],
      jacImports := [(mod, base, if main then Option.some "__main__" else Option.none)],
      raisedExc := Option.none }
  else
    { prints := ["Not a .jac file."], jacImports := [], raisedExc := Option.none }

/-- The `enter` command: import the module, report import failure by
printing, then call the entrypoint — an exception from that call is the
only thing that escapes uncaught.  `importOk` and `callResult` stand for
the outcomes of `jac_import` and of the entrypoint call. -/
def enterCmd (filename : String) (importOk : Bool)
    (callResult : Except String Unit) : CmdOutcome :=
  if strEndsWith filename ".jac" then
    let p := osPathSplit filename
    let base := if p.1 = "" then "./" else p.1
    let mod := p.2.dropRight 4
    if importOk then
      match callResult with
      | .ok _ => CmdOutcome.mk [] [(mod, base, Option.none)] Option.none
      | .error e => CmdOutcome.mk [] [(mod, base, Option.none)] (Option.some e)
    else
      { prints := ["Errors occurred while importing the module."],
        jacImports := [(mod, base, Option.none)], raisedExc := Option.none }
  else
    { prints := ["Not a .jac file."], jacImports := [], raisedExc := Option.none }

/-- The `test` command: import the module and run its registered suite
(the `unittest` runner returns normally whether or not tests pass);
otherwise print `Not a .jac file.`. -/
def testCmd (filename : String) : CmdOutcome :=
  if strEndsWith filename ".jac" then
    let p := osPathSplit filename
    let base := if p.1 = "" then "./" else p.1
    let mod := p.2.dropRight 4
    { prints := [], jacImports := [(mod, base, Option.none)], raisedExc := Option.none }
  else
    { prints := ["Not a .jac file."], jacImports := [], raisedExc := Option.none }

/-- The `ast_tool` command: unknown tools and tools that raise are both
reported by printing a message (`except Exception` swallows the tool's
failure); the command always returns normally. -/
def astToolCmd (tool : String) (toolExists : Bool)
    (toolRun : Except String String) : CmdOutcome :=
  if toolExists then
    match toolRun with
    | .ok s => CmdOutcome.mk [s] [] Option.none
    | .error _ =>
      CmdOutcome.mk ["Error while running ast tool " ++ tool ++ ", check args."] []
        Option.none
  else
    { prints := ["Ast tool " ++ tool ++ " not found."], jacImports := [], raisedExc := Option.none }

/-- The process exit code of a CLI invocation: `start_cli` never calls
`sys.exit` and the commands return `None`, so the interpreter exits with
`0` whenever the command returns normally; only an uncaught exception
produces a nonzero status. -/
def processExitCode (o : CmdOutcome) : Nat :=
  match o.raisedExc with
  | Option.none => 0
  | Option.some _ => 1

/-- C8 counterexample: invoking `run` on a file that is not a source
file prints `Not a .jac file.` and the process still exits with code `0`
— not nonzero as claimed; likewise a named AST tool that fails only
prints an error message and exits `0`. -/
theorem c8_exit_code_zero_counterexample :
    processExitCode (runCmd "circle.py" true) = 0 ∧
      (runCmd "circle.py" true).prints = ["Not a .jac file."] ∧
      processExitCode (astToolCmd "dotgen" true (.error "boom")) = 0 ∧
      (astToolCmd "dotgen" true (.error "boom")).prints =
        ["Error while running ast tool dotgen, check args."] := by
  refine ⟨by decide, by decide, by decide, by decide⟩

/-- C8 (amended): the CLI exits with code `0` on success, and also when
the input is not a source file (for `run`, `enter`, `test`, which merely
print `Not a .jac file.`) and when a named AST tool fails (`ast_tool`
catches the exception and prints a message).  No code path sets a
nonzero exit status; one can only arise from an exception the CLI does
not catch, such as the entrypoint call of `enter` raising. -/
theorem c8_cli_prints_and_exit_codes (fn tool e : String) (main importOk : Bool)
    (h : strEndsWith fn ".jac" = false) :
    (runCmd fn main).prints = ["Not a .jac file."] ∧
      processExitCode (runCmd fn main) = 0 ∧
      (testCmd fn).prints = ["Not a .jac file."] ∧
      processExitCode (testCmd fn) = 0 ∧
      (enterCmd fn importOk (.ok ())).prints = ["Not a .jac file."] ∧
      processExitCode (enterCmd fn importOk (.ok ())) = 0 ∧
      processExitCode (astToolCmd tool true (.error e)) = 0 ∧
      (astToolCmd tool true (.error e)).prints =
        ["Error while running ast tool " ++ tool ++ ", check args."] := by
  simp [runCmd, testCmd, enterCmd, astToolCmd, processExitCode, h]

/-- C8 witness: the amended statement at a concrete non-source file. -/
theorem c8_cli_prints_and_exit_codes_witness :
    strEndsWith "circle.py" ".jac" = false ∧
      ((runCmd "circle.py" true).prints = ["Not a .jac file."] ∧
        processExitCode (runCmd "circle.py" true) = 0 ∧
        (testCmd "circle.py").prints = ["Not a .jac file."] ∧
        processExitCode (testCmd "circle.py") = 0 ∧
        (enterCmd "circle.py" true (.ok ())).prints = ["Not a .jac file."] ∧
        processExitCode (enterCmd "circle.py" true (.ok ())) = 0 ∧
        processExitCode (astToolCmd "dotgen" true (.error "boom")) = 0 ∧
        (astToolCmd "dotgen" true (.error "boom")).prints =
          ["Error while running ast tool " ++ "dotgen" ++ ", check args."]) :=
  ⟨by decide, c8_cli_prints_and_exit_codes "circle.py" "dotgen" "boom" true true (by decide)⟩

end JacGen
